import Mathlib

/-!
Verification of the partner visit/points aggregation engine of the Zabava
repository: a shallow embedding in Lean 4 of the two exported functions of
an embedding of the ECMAScript value and coercion semantics they rely on
(truthiness, string/number coercion, object spread, JSON parsing, date
parsing, the stable Array.prototype.sort), followed by theorems settling
the specification claims.

Modelling conventions, used throughout:
- JavaScript values reachable in this code are modelled by the inductive
  type JsonVal; JavaScript "undefined" is represented by the absence of a
  key in an object (Obj.get returning none), while "null" is the explicit
  JsonVal.null.  Every place the source distinguishes the two (it never
  does: every check treats them alike) is noted at its definition.
- JavaScript numbers are modelled as Int, with none : Option Int playing
  the role of NaN where NaN can arise; fractional literals are outside the
  model (none of the stored fields the source coerces are fractional in
  the scenarios the spec fixes, and JSON numbers are modelled as integers).
- String case-mapping is ASCII (Char.toLower/Char.toUpper), matching the
  identifiers and field names the source manipulates.
- The key-value store (the kv client of the source) is a pure structure
  KVStore of its two read operations; a fetch that throws in the source is
  caught and treated as an empty result there, so the model folds failures
  into the empty answer, which is the single behaviour the code exposes.
-/

/-- JsonVal models the JavaScript/JSON values that flow through the partner
data module: null, booleans, (integer) numbers, strings, arrays, objects. -/
inductive JsonVal where
  | null
  | bool (b : Bool)
  | num (n : Int)
  | str (s : String)
  | arr (xs : List JsonVal)
  | obj (fields : List (String × JsonVal))

/-- Obj is a JavaScript object: an association list with unique keys kept in
insertion order (the invariant JavaScript objects maintain). -/
def Obj := List (String × JsonVal)

instance : Append Obj := ⟨List.append⟩

/-- Obj.get models property access o[k]: the value at the first (hence, for
objects built by Obj.insert, only) binding of k, none for a missing key
(JavaScript undefined). -/
def Obj.get (o : Obj) (k : String) : Option JsonVal :=
  match o with
  | [] => none
  | (k', v) :: rest => if k' = k then some v else Obj.get rest k

/-- Obj.insert models JavaScript property assignment o[k] = v: an existing
binding keeps its position and takes the new value, a new key is appended. -/
def Obj.insert (o : Obj) (k : String) (v : JsonVal) : Obj :=
  match o with
  | [] => [(k, v)]
  | (k', v') :: rest =>
      if k' = k then (k', v) :: rest else (k', v') :: Obj.insert rest k v

/-- Obj.isEmpty models the check Object.keys(o).length === 0 (and, the way
the source always pairs it, a null result of hgetall, which the model folds
into the empty object). -/
def Obj.isEmpty (o : Obj) : Bool :=
  match o with
  | [] => true
  | _ => false

/-- truthy is ECMAScript ToBoolean: null/false/0/empty-string are falsy,
arrays and objects (even empty ones) are truthy. -/
def truthy : JsonVal → Bool
  | .null => false
  | .bool b => b
  | .num n => n != 0
  | .str s => s ≠ ""
  | .arr _ => true
  | .obj _ => true

/-- jor models the JavaScript expression a || b: a when a is truthy, else b. -/
def jor (a b : JsonVal) : JsonVal := if truthy a then a else b

/-- nn models the JavaScript expression a ?? b at a property-access a: the
value when the access yields neither undefined (none) nor null, else b. -/
def nn (a : Option JsonVal) (b : JsonVal) : JsonVal :=
  match a with
  | none => b
  | some .null => b
  | some v => v

/-- fget collapses property access for contexts where undefined and null
behave identically (||, ToBoolean, the !== undefined && !== null filter):
a missing key reads as null. -/
def fget (o : Obj) (k : String) : JsonVal := (Obj.get o k).getD .null

mutual

/-- jsToString is ECMAScript ToString on the values of the model: arrays
join their elements with commas (null elements as empty), objects print as
the object placeholder string. -/
def jsToString : JsonVal → String
  | .null => "null"
  | .bool b => if b then "true" else "false"
  | .num n => toString n
  | .str s => s
  | .arr xs => String.intercalate "," (jsToStringElems xs)
  | .obj _ => "[object Object]"

/-- jsToStringElems stringifies array elements for the comma join, with
null elements contributing the empty string as Array.prototype.join does. -/
def jsToStringElems : List JsonVal → List String
  | [] => []
  | .null :: rest => "" :: jsToStringElems rest
  | v :: rest => jsToString v :: jsToStringElems rest

end

/-- isJsWs recognises the whitespace characters relevant to trimming and
number coercion in this model (space, tab, newline, carriage return). -/
def isJsWs (c : Char) : Bool := c = ' ' || c = '\t' || c = '\n' || c = '\r'

/-- jsTrim models String.prototype.trim: strip leading and trailing
whitespace. -/
def jsTrim (s : String) : String :=
  String.mk (((s.data.dropWhile isJsWs).reverse.dropWhile isJsWs).reverse)

/-- jsLower models String.prototype.toLowerCase on the ASCII fragment. -/
def jsLower (s : String) : String := String.mk (s.data.map Char.toLower)

/-- jsUpper models String.prototype.toUpperCase on the ASCII fragment. -/
def jsUpper (s : String) : String := String.mk (s.data.map Char.toUpper)

/-- digitsToNat folds a run of decimal digit characters into a Nat. -/
def digitsToNat (acc : Nat) : List Char → Nat
  | [] => acc
  | c :: rest => digitsToNat (acc * 10 + (c.toNat - '0'.toNat)) rest

/-- strToNumber is ECMAScript ToNumber on a string, restricted to the
integer fragment of the model: the trimmed string must be empty (0) or an
optionally signed run of decimal digits; everything else (including the
fractional and exponent forms the model excludes) is NaN, i.e. none. -/
def strToNumber (s : String) : Option Int :=
  let t := (jsTrim s).data
  match t with
  | [] => some 0
  | '-' :: ds =>
      if ds ≠ [] ∧ ds.all (·.isDigit) then some (-(digitsToNat 0 ds : Int)) else none
  | '+' :: ds =>
      if ds ≠ [] ∧ ds.all (·.isDigit) then some ((digitsToNat 0 ds : Int)) else none
  | ds =>
      if ds.all (·.isDigit) then some ((digitsToNat 0 ds : Int)) else none

/-- toNumber is ECMAScript ToNumber (none playing NaN): null is 0, booleans
are 0/1, a one-element array coerces through its string, other arrays and
all plain objects are NaN. -/
def toNumber : JsonVal → Option Int
  | .null => some 0
  | .bool b => some (if b then 1 else 0)
  | .num n => some n
  | .str s => strToNumber s
  | .arr [] => some 0
  | .arr [x] => strToNumber (match x with | .null => "" | v => jsToString v)
  | .arr _ => none
  | .obj _ => none

/-- numOr0 models the idiom Number(v) || 0 of the source: NaN and 0 both
collapse to 0, any other number stands. -/
def numOr0 (v : JsonVal) : Int := (toNumber v).getD 0

/-- spreadInto models the object-literal spread \x7b...o, ...v\x7d:
object fields are merged key by key, strings and arrays contribute their
index-keyed elements, primitives contribute nothing. -/
def spreadInto (o : Obj) : JsonVal → Obj
  | .obj fields => fields.foldl (fun acc p => acc.insert p.1 p.2) o
  | .str s => (s.data.enum.map (fun p => (toString p.1, JsonVal.str (String.mk [p.2])))).foldl
      (fun acc p => acc.insert p.1 p.2) o
  | .arr xs => (xs.enum.map (fun p => (toString p.1, p.2))).foldl
      (fun acc p => acc.insert p.1 p.2) o
  | _ => o

/-- jget models property access on an arbitrary value (payload.data and the
like): only genuine objects expose fields, every other base yields
undefined, matching the source where the bases that do expose properties
(strings) are never accessed at the field names in play. -/
def jget (v : JsonVal) (k : String) : Option JsonVal :=
  match v with
  | .obj fields => Obj.get fields k
  | _ => none

/-- pget collapses jget the way fget collapses Obj.get: missing reads null. -/
def pget (v : JsonVal) (k : String) : JsonVal := (jget v k).getD .null

/-- skipWs consumes leading JSON whitespace. -/
def skipWs : List Char → List Char
  | [] => []
  | c :: rest => if isJsWs c then skipWs rest else c :: rest

/-- parseStrBody parses the body of a JSON string after the opening quote,
handling the escape sequences of JSON apart from unicode escapes (which the
model excludes); it returns the decoded characters and the remainder after
the closing quote. -/
def parseStrBody : List Char → Option (List Char × List Char)
  | [] => none
  | '"' :: rest => some ([], rest)
  | '\\' :: c :: rest =>
      (match c with
        | '"' => some '"'
        | '\\' => some '\\'
        | '/' => some '/'
        | 'n' => some '\n'
        | 't' => some '\t'
        | 'r' => some '\r'
        | 'b' => some (Char.ofNat 8)
        | 'f' => some (Char.ofNat 12)
        | _ => none).bind (fun e =>
          match parseStrBody rest with
          | some (s, r) => some (e :: s, r)
          | none => none)
  | ['\\'] => none
  | c :: rest =>
      match parseStrBody rest with
      | some (s, r) => some (c :: s, r)
      | none => none

/-- parseNum parses a JSON integer literal (the numeric fragment of the
model: fractional and exponent forms are rejected rather than approximated). -/
def parseNum (cs : List Char) : Option (JsonVal × List Char) :=
  let p : Bool × List Char :=
    match cs with
    | '-' :: rest => (true, rest)
    | _ => (false, cs)
  let ds := p.2.takeWhile (·.isDigit)
  let rest := p.2.dropWhile (·.isDigit)
  if ds = [] then none
  else if ds.length > 1 ∧ ds.headD '0' = '0' then none
  else
    match rest with
    | '.' :: _ => none
    | 'e' :: _ => none
    | 'E' :: _ => none
    | _ => some (.num (if p.1 then -(digitsToNat 0 ds : Int) else (digitsToNat 0 ds : Int)), rest)

mutual

/-- parseVal is a fuel-indexed recursive-descent parser for the JSON
fragment of the model, mirroring ECMAScript JSON.parse on it (in
particular an object with a repeated key keeps the last value at the
first position, exactly as Obj.insert does). -/
def parseVal : Nat → List Char → Option (JsonVal × List Char)
  | 0, _ => none
  | fuel+1, cs =>
    match skipWs cs with
    | '"' :: rest =>
        (parseStrBody rest).map (fun p => (.str (String.mk p.1), p.2))
    | '{' :: rest =>
        (match skipWs rest with
         | '}' :: r => some (.obj [], r)
         | r => parseObjRest fuel r [])
    | '[' :: rest =>
        (match skipWs rest with
         | ']' :: r => some (.arr [], r)
         | r => parseArrRest fuel r [])
    | 't' :: 'r' :: 'u' :: 'e' :: rest => some (.bool true, rest)
    | 'f' :: 'a' :: 'l' :: 's' :: 'e' :: rest => some (.bool false, rest)
    | 'n' :: 'u' :: 'l' :: 'l' :: rest => some (.null, rest)
    | other => parseNum other

/-- parseObjRest parses the members of a JSON object after the opening
brace, accumulating them with Obj.insert. -/
def parseObjRest : Nat → List Char → Obj → Option (JsonVal × List Char)
  | 0, _, _ => none
  | fuel+1, cs, acc =>
    match skipWs cs with
    | '"' :: rest =>
      (match parseStrBody rest with
       | some (k, r1) =>
         (match skipWs r1 with
          | ':' :: r2 =>
            (match parseVal fuel r2 with
             | some (v, r3) =>
               (match skipWs r3 with
                | ',' :: r4 => parseObjRest fuel r4 (acc.insert (String.mk k) v)
                | '}' :: r4 => some (.obj (acc.insert (String.mk k) v), r4)
                | _ => none)
             | none => none)
          | _ => none)
       | none => none)
    | _ => none

/-- parseArrRest parses the elements of a JSON array after the opening
bracket. -/
def parseArrRest : Nat → List Char → List JsonVal → Option (JsonVal × List Char)
  | 0, _, _ => none
  | fuel+1, cs, acc =>
    match parseVal fuel cs with
    | some (v, r1) =>
      (match skipWs r1 with
       | ',' :: r2 => parseArrRest fuel r2 (acc ++ [v])
       | ']' :: r2 => some (.arr (acc ++ [v]), r2)
       | _ => none)
    | none => none

end

/-- jsonParse models JSON.parse on the fragment of the model: none is a
thrown SyntaxError (which every caller in the source catches). -/
def jsonParse (s : String) : Option JsonVal :=
  match parseVal (s.data.length * 2 + 8) s.data with
  | some (v, rest) => if skipWs rest = [] then some v else none
  | none => none

/-- daysInMonth gives the length of month m (1-12) in year y. -/
def daysInMonth (y : Int) (m : Nat) : Nat :=
  if m = 1 ∨ m = 3 ∨ m = 5 ∨ m = 7 ∨ m = 8 ∨ m = 10 ∨ m = 12 then 31
  else if m = 4 ∨ m = 6 ∨ m = 9 ∨ m = 11 then 30
  else if (y % 4 = 0 ∧ y % 100 ≠ 0) ∨ y % 400 = 0 then 29
  else 28

/-- daysFromCivil counts the days from 1970-01-01 to a proleptic-Gregorian
calendar date, by the standard era decomposition. -/
def daysFromCivil (y : Int) (m d : Nat) : Int :=
  let y' := if m ≤ 2 then y - 1 else y
  let era := Int.fdiv y' 400
  let yoe := y' - era * 400
  let mp : Int := (m : Int) + (if m > 2 then -3 else 9)
  let doy := Int.fdiv (153 * mp + 2) 5 + (d : Int) - 1
  let doe := yoe * 365 + Int.fdiv yoe 4 - Int.fdiv yoe 100 + doy
  era * 146097 + doe - 719468

/-- parseDateStr models Date parsing of the ISO date-only form YYYY-MM-DD
(parsed as UTC midnight, as ECMAScript specifies); every other string is an
invalid date in the model, i.e. none (NaN time value). -/
def parseDateStr (s : String) : Option Int :=
  match s.data with
  | [y1, y2, y3, y4, '-', m1, m2, '-', d1, d2] =>
    if ([y1, y2, y3, y4, m1, m2, d1, d2].all (·.isDigit)) then
      let y : Int := (digitsToNat 0 [y1, y2, y3, y4] : Int)
      let m := digitsToNat 0 [m1, m2]
      let d := digitsToNat 0 [d1, d2]
      if 1 ≤ m ∧ m ≤ 12 ∧ 1 ≤ d ∧ d ≤ daysInMonth y m then
        some (daysFromCivil y m d * 86400000)
      else none
    else none
  | _ => none

/-- dateTime models the time value of new Date(v) for the values that reach
the sort comparator: numbers are taken as milliseconds, booleans coerce
through ToNumber, strings go through date parsing, and the remaining
shapes are invalid dates (none, i.e. NaN). -/
def dateTime : JsonVal → Option Int
  | .num n => some n
  | .bool b => some (if b then 1 else 0)
  | .null => some 0
  | .str s => parseDateStr s
  | .arr _ => none
  | .obj _ => none

/-- splitSeg splits a character list at its first colon: the segment before
it and, when a colon exists, the remainder after it. -/
def splitSeg : List Char → List Char × Option (List Char)
  | [] => ([], none)
  | ':' :: rest => ([], some rest)
  | c :: rest =>
      let r := splitSeg rest
      (c :: r.1, r.2)

/-- matchVisitKey models the source regular expression
qr-colon, then two nonempty colon-free groups, then a nonempty free tail
(the pattern the loader applies to every member key), returning the
captured (email, partnerId, visitId) on a match. -/
def matchVisitKey (s : String) : Option (String × String × String) :=
  match s.data with
  | 'q' :: 'r' :: ':' :: rest =>
    match splitSeg rest with
    | (e, some r2) =>
      if e = [] then none
      else
        match splitSeg r2 with
        | (p, some r3) =>
          if p = [] then none
          else if r3 = [] then none
          else some (String.mk e, String.mk p, String.mk r3)
        | (_, none) => none
    | (_, none) => none
  | _ => none

/-- KVStore is the pure read interface of the key-value store the engine
consumes: smembers and hgetall.  A fetch that throws in the source is
caught there and treated as an empty result, so the model folds failures
into the empty answer. -/
structure KVStore where
  sets : String → List String
  hashes : String → Obj

/-- Metrics mirrors the metrics object of the source; revenue, points and
the averages are Option Int because NaN (none) can flow into them through
string-typed fields. -/
structure Metrics where
  count : Int
  used : Int
  unused : Int
  visited : Int
  notVisited : Int
  revenue : Option Int
  points : Option Int
  bonusRedemptions : Int
  averageRevenue : Option Int
  averagePoints : Option Int
deriving DecidableEq

/-- EMPTY_METRICS mirrors the constant of the same name in the source. -/
def EMPTY_METRICS : Metrics :=
  { count := 0, used := 0, unused := 0, visited := 0, notVisited := 0,
    revenue := some 0, points := some 0, bonusRedemptions := 0,
    averageRevenue := some 0, averagePoints := some 0 }

/-- LoadResult is the object loadPartnerData returns. -/
structure LoadResult where
  partnerId : String
  submissions : List Obj
  metrics : Metrics
  partnerLabel : JsonVal

/-- normalizePartnerId mirrors the source helper: trim then lower-case
(String(partnerId || "") is the identity on the string inputs modelled). -/
def normalizePartnerId (partnerId : String) : String := jsLower (jsTrim partnerId)

/-- parsePayload mirrors the exported parsePayload of partner-data.js (the
identical copy in the legacy file is the same function): decode a
possibly-string payload, fall back to a rawPayload wrapper on a parse
error, then, when the decoded value has a truthy string data field,
parse that string too and spread it over the outer value, the nested keys
winning as the spread order of the source dictates. -/
def parsePayload (record : Obj) : JsonVal :=
  match Obj.get record "payload" with
  | none => .obj []
  | some pv =>
    if truthy pv then
      let payload :=
        match pv with
        | .str s =>
          (match jsonParse s with
           | some v => v
           | none => .obj [("rawPayload", pv)])
        | v => v
      match jget payload "data" with
      | some (.str ds) =>
        if ds ≠ "" then
          (match jsonParse ds with
           | some nested => .obj (spreadInto (spreadInto [] payload) nested)
           | none => payload)
        else payload
      | _ => payload
    else .obj []

/-- addUnique appends a string to a list unless already present, modelling
insertion into a JavaScript Set (insertion order preserved). -/
def addUnique (l : List String) (s : String) : List String :=
  if s ∈ l then l else l ++ [s]

/-- addVisitKeyVariant mirrors the closure of the same name: skip empty
values, trim, skip when the trim is empty, else add the prefixed key. -/
def addVisitKeyVariant (acc : List String) (value : String) : List String :=
  if value = "" then acc
  else
    let trimmed := jsTrim value
    if trimmed = "" then acc
    else addUnique acc ("partner:visits:" ++ trimmed)

/-- visitSetKeys reproduces the variant enumeration of the source: the raw
identifier, the normalized one, and (for truthy inputs) the lower, upper
and normalized-upper casings, deduplicated in insertion order. -/
def visitSetKeys (partnerId normalizedId : String) : List String :=
  let k1 := addVisitKeyVariant (addVisitKeyVariant [] partnerId) normalizedId
  let k2 :=
    if partnerId ≠ "" then
      addVisitKeyVariant (addVisitKeyVariant k1 (jsLower partnerId)) (jsUpper partnerId)
    else k1
  if normalizedId ≠ "" then addVisitKeyVariant k2 (jsUpper normalizedId) else k2

/-- startsWithQr tests for the literal key prefix the loader filters member
keys by. -/
def startsWithQr (s : String) : Bool :=
  match s.data with
  | 'q' :: 'r' :: ':' :: _ => true
  | _ => false

/-- visitRecordKeys collects, over every visit-set key, the nonempty
string members with the qr prefix, deduplicated in insertion order,
mirroring the member-collection loop of the source. -/
def visitRecordKeys (store : KVStore) (keys : List String) : List String :=
  keys.foldl (fun acc k =>
    (store.sets k).foldl
      (fun acc m => if m ≠ "" ∧ startsWithQr m then addUnique acc m else acc) acc) []

/-- truthyStatuses is the truthy-status vocabulary for the used flag. -/
def truthyStatuses : List String :=
  ["true", "used", "redeemed", "completed", "yes", "awarded", "1"]

/-- visitedStatuses is the truthy-status vocabulary for the visited flag. -/
def visitedStatuses : List String :=
  ["true", "visited", "completed", "redeemed", "checkedin", "checked-in",
   "checked_in", "approved", "yes", "1"]

/-- candValues mirrors the candidate-collection idiom of the source: take
field and status from record and payload, drop undefined and null, then
stringify, trim and lower-case each survivor. -/
def candValues (record : Obj) (payload : JsonVal) (field : String) : List String :=
  ((([Obj.get record field, jget payload field,
      Obj.get record "status", jget payload "status"].filterMap id).filter
    (fun v => match v with | .null => false | _ => true)).map
    (fun v => jsLower (jsTrim (jsToString v))))

/-- visitTotalPrice is the totalPrice derivation of the visit-set branch:
the nullish-coalescing chain payload.totalPrice, payload.price,
record.totalPrice, record.price, 0, then Number(...) with NaN collapsed
to 0. -/
def visitTotalPrice (record : Obj) (payload : JsonVal) : Int :=
  numOr0 (nn (jget payload "totalPrice") (nn (jget payload "price")
    (nn (Obj.get record "totalPrice") (nn (Obj.get record "price") (.num 0)))))

/-- visitEstimatedPoints is the estimatedPoints derivation of the visit-set
branch. -/
def visitEstimatedPoints (record : Obj) (payload : JsonVal) : Int :=
  numOr0 (nn (jget payload "estimatedPoints") (nn (jget payload "points")
    (nn (Obj.get record "estimatedPoints") (.num 0))))

/-- visitPointsAwarded is the pointsAwarded derivation of the visit-set
branch. -/
def visitPointsAwarded (record : Obj) (payload : JsonVal) : Int :=
  numOr0 (nn (Obj.get record "pointsAwarded") (nn (jget payload "pointsAwarded") (.num 0)))

/-- visitUsed is the used flag: some candidate lies in truthyStatuses. -/
def visitUsed (record : Obj) (payload : JsonVal) : Bool :=
  (candValues record payload "used").any (truthyStatuses.contains ·)

/-- visitVisited is the visited flag: some candidate lies in
visitedStatuses, or a truthy visitedAt exists on record or payload. -/
def visitVisited (record : Obj) (payload : JsonVal) : Bool :=
  (candValues record payload "visited").any (visitedStatuses.contains ·)
  || truthy (fget record "visitedAt") || truthy (pget payload "visitedAt")

/-- normalizePartnerIdVal applies the source normalizePartnerId to an
arbitrary value: String(v || "") then trim and lower-case. -/
def normalizePartnerIdVal (v : JsonVal) : String :=
  normalizePartnerId (jsToString (jor v (.str "")))

/-- canonicalPartnerIdOf mirrors the two-stage canonicalisation of the
visit-set branch: the first nonempty normalisation of record.partnerId,
the key-embedded partner id, the caller's normalizedId, the normalised
raw identifier; if all are empty, fall back to the raw (unnormalised)
chain. -/
def canonicalPartnerIdOf (record : Obj) (visitPartnerFromKey normalizedId partnerId : String) :
    JsonVal :=
  let c0 := normalizePartnerIdVal (fget record "partnerId")
  let c1 := if c0 ≠ "" then c0 else normalizePartnerId visitPartnerFromKey
  let c2 := if c1 ≠ "" then c1 else normalizedId
  let c3 := if c2 ≠ "" then c2 else normalizePartnerId partnerId
  if c3 ≠ "" then .str c3
  else jor (fget record "partnerId") (jor (.str visitPartnerFromKey) (.str partnerId))

/-- createdAtChain is the createdAt fallback chain shared by both branches
of the current implementation. -/
def createdAtChain (record : Obj) (payload : JsonVal) : JsonVal :=
  jor (fget record "createdAt") (jor (pget payload "createdAt")
    (jor (fget record "updatedAt") (jor (pget payload "updatedAt")
      (jor (fget record "visitedAt") (jor (pget payload "visitedAt") .null)))))

/-- buildVisitSubmission is the submission object of the visit-set branch:
the decoded payload spread first, then the explicitly listed fields in
source order (so the explicit fields win over payload keys). -/
def buildVisitSubmission (partnerId normalizedId visitKey : String) (record : Obj) : Obj :=
  let payload := parsePayload record
  let km := matchVisitKey visitKey
  let visitEmailFromKey := match km with | some (e, _, _) => e | none => ""
  let visitPartnerFromKey := match km with | some (_, p, _) => p | none => ""
  let visitIdFromKey : JsonVal := match km with | some (_, _, v) => .str v | none => .null
  let totalPrice := visitTotalPrice record payload
  let estimatedPointsValue := visitEstimatedPoints record payload
  let pointsAwarded := visitPointsAwarded record payload
  let used := visitUsed record payload
  let visited := visitVisited record payload
  let canonical := canonicalPartnerIdOf record visitPartnerFromKey normalizedId partnerId
  let email := jor (fget record "email") (jor (pget payload "email")
    (jor (.str visitEmailFromKey) (jor (fget record "normalizedEmail") (.str ""))))
  let createdAt := createdAtChain record payload
  let scannedAt := jor (fget record "scannedAt") (jor (pget payload "scannedAt") .null)
  (((((((((((((((((spreadInto [] payload).insert
    "partnerId" canonical).insert
    "visitId" (jor (fget record "visitId") (jor (pget payload "visitId") visitIdFromKey))).insert
    "qrKey" (.str visitKey)).insert
    "email" email).insert
    "used" (.bool used)).insert
    "status" (jor (fget record "status") (jor (pget payload "status") .null))).insert
    "createdAt" createdAt).insert
    "updatedAt" (jor (fget record "updatedAt") (jor (pget payload "updatedAt") .null))).insert
    "scannedAt" scannedAt).insert
    "totalPrice" (.num totalPrice)).insert
    "estimatedPoints" (.num (if pointsAwarded ≠ 0 then pointsAwarded else estimatedPointsValue))).insert
    "pointsAwarded" (.num pointsAwarded)).insert
    "visited" (.bool visited)).insert
    "visitedAt" (jor (fget record "visitedAt") (jor (pget payload "visitedAt") .null))).insert
    "originalPayload" payload))

/-- resolveRecord mirrors the record loading of the visit-set branch: fetch
the hash at the member key; when empty, fall back to the legacy
single-record key for the key-embedded email; when nonempty and a
nonempty legacy record exists, spread the legacy record underneath the
current one (current fields winning). -/
def resolveRecord (store : KVStore) (visitKey : String) : Obj :=
  let visitEmailFromKey :=
    match matchVisitKey visitKey with
    | some (e, _, _) => e
    | none => ""
  let record := store.hashes visitKey
  if record.isEmpty then
    if visitEmailFromKey ≠ "" then store.hashes ("qr:email:" ++ visitEmailFromKey)
    else record
  else
    if visitEmailFromKey ≠ "" then
      let legacyRecord := store.hashes ("qr:email:" ++ visitEmailFromKey)
      if legacyRecord.isEmpty then record
      else spreadInto (spreadInto [] (.obj legacyRecord)) (.obj record)
    else record

/-- subTime is the sort key: new Date(submission.createdAt || 0).getTime(),
none standing for NaN. -/
def subTime (s : Obj) : Option Int := dateTime (jor (fget s "createdAt") (.num 0))

/-- jsSortCmp is the comparator body bTime - aTime, NaN-propagating. -/
def jsSortCmp (a b : Obj) : Option Int :=
  match subTime a, subTime b with
  | some ta, some tb => some (tb - ta)
  | _, _ => none

/-- jsSortLe turns the comparator into the boolean order the stable sort
consumes, with a NaN comparator result reading as 0 exactly as the
ECMAScript SortCompare abstract operation prescribes. -/
def jsSortLe (a b : Obj) : Bool := (jsSortCmp a b).getD 0 ≤ 0

/-- jsMergeF is a fuel-indexed structural copy of List.merge, written so
the kernel can evaluate it on concrete ledgers; jsMergeF_eq proves it
agrees with List.merge whenever the fuel covers both lists. -/
def jsMergeF (le : α → α → Bool) : Nat → List α → List α → List α
  | 0, xs, ys => xs ++ ys
  | _ + 1, [], ys => ys
  | _ + 1, x :: xs, [] => x :: xs
  | fuel + 1, x :: xs, y :: ys =>
      if le x y then x :: jsMergeF le fuel xs (y :: ys)
      else y :: jsMergeF le fuel (x :: xs) ys

/-- jsMergeSortF is a fuel-indexed structural copy of List.mergeSort (same
contiguous halves, hence the same stable sort); it models
Array.prototype.sort, which ECMAScript requires to be a stable sort
consistent with the comparator. -/
def jsMergeSortF (le : α → α → Bool) : Nat → List α → List α
  | 0, l => l
  | fuel + 1, l =>
    match l with
    | [] => []
    | [a] => [a]
    | l =>
        jsMergeF le l.length (jsMergeSortF le fuel (l.take ((l.length + 1) / 2)))
          (jsMergeSortF le fuel (l.drop ((l.length + 1) / 2)))

/-- jsSort is the stable sort applied to the submissions array with the
source comparator, with fuel adequate by jsSort_eq_mergeSort. -/
def jsSort (l : List Obj) : List Obj := jsMergeSortF jsSortLe l.length l

/-- addJs is JavaScript addition on the numeric model: NaN absorbs. -/
def addJs (a b : Option Int) : Option Int :=
  match a, b with
  | some x, some y => some (x + y)
  | _, _ => none

/-- revenueContrib is the per-submission revenue term
Number(submission.totalPrice || 0). -/
def revenueContrib (s : Obj) : Option Int := toNumber (jor (fget s "totalPrice") (.num 0))

/-- pointsContrib is the per-submission points term of the current
implementation: pointsAwarded when truthy, else estimatedPoints, each
through Number(... || 0). -/
def pointsContrib (s : Obj) : Option Int :=
  if truthy (fget s "pointsAwarded") then toNumber (jor (fget s "pointsAwarded") (.num 0))
  else toNumber (jor (fget s "estimatedPoints") (.num 0))

/-- isBonusSub is the bonus test of the current implementation:
String(submission.ticket || submission.ticketType || "").toLowerCase()
equal to the lower-case literal. -/
def isBonusSub (s : Obj) : Bool :=
  jsLower (jsToString (jor (fget s "ticket") (jor (fget s "ticketType") (.str "")))) = "bonusreward"

/-- MAcc is the five mutable accumulators of the aggregation loop. -/
structure MAcc where
  revenue : Option Int
  points : Option Int
  used : Int
  visitedCount : Int
  bonusRedemptions : Int

/-- jsRound is Math.round(r / c) for a positive integer count c: the floor
of r / c + 1/2, computed exactly. -/
def jsRound (r : Int) (c : Int) : Int := Int.fdiv (2 * r + c) (2 * c)

/-- aggregateMetrics is the forEach aggregation plus the final metrics
object, parameterised by the per-submission points term and bonus test in
which the two implementations differ. -/
def aggregateMetrics (pointsOf : Obj → Option Int) (isBonus : Obj → Bool)
    (subs : List Obj) : Metrics :=
  let acc : MAcc := subs.foldl (fun (acc : MAcc) s =>
    { revenue := addJs acc.revenue (revenueContrib s),
      points := addJs acc.points (pointsOf s),
      used := acc.used + (if truthy (fget s "used") then 1 else 0),
      visitedCount := acc.visitedCount + (if truthy (fget s "visited") then 1 else 0),
      bonusRedemptions := acc.bonusRedemptions + (if isBonus s then 1 else 0) })
    { revenue := some 0, points := some 0, used := 0, visitedCount := 0, bonusRedemptions := 0 }
  let count : Int := subs.length
  { count := count, used := acc.used, unused := count - acc.used,
    visited := acc.visitedCount, notVisited := count - acc.visitedCount,
    revenue := acc.revenue, points := acc.points,
    bonusRedemptions := acc.bonusRedemptions,
    averageRevenue := if count ≠ 0 then acc.revenue.map (fun r => jsRound r count) else some 0,
    averagePoints := if count ≠ 0 then acc.points.map (fun p => jsRound p count) else some 0 }

/-- labelOf is the per-submission partnerLabel chain. -/
def labelOf (s : Obj) : JsonVal :=
  jor (fget s "partnerName") (jor (fget s "attractionName")
    (jor (pget (fget s "originalPayload") "partnerName")
      (jor (pget (fget s "originalPayload") "attractionName")
        (jor (pget (fget s "originalPayload") "partnerLabel") .null))))

/-- findPartnerLabel is the label scan: the first truthy chain value in
ledger order, else null. -/
def findPartnerLabel : List Obj → JsonVal
  | [] => .null
  | s :: rest =>
      let l := labelOf s
      if truthy l then l else findPartnerLabel rest

/-- finishResult is the common tail of the current implementation: stable
sort by the createdAt comparator, aggregate, scan for the label, and
assemble the result. -/
def finishResult (partnerId : String) (submissions : List Obj) : LoadResult :=
  let sorted := jsSort submissions
  { partnerId := partnerId, submissions := sorted,
    metrics := aggregateMetrics pointsContrib isBonusSub sorted,
    partnerLabel := findPartnerLabel sorted }

/-- legacyKeys is the legacy email-set key enumeration shared by the
legacy branch of the current implementation and the legacy file:
partner:normalizedId when nonempty, plus partner:partnerId when the raw
identifier is truthy and differs from the normalised one. -/
def legacyKeys (partnerId normalizedId : String) : List String :=
  let keys := if normalizedId ≠ "" then ["partner:" ++ normalizedId] else []
  if partnerId ≠ "" ∧ partnerId ≠ normalizedId then addUnique keys ("partner:" ++ partnerId)
  else keys

/-- legacyEmails flattens the member sets of the legacy keys, keeps the
nonempty strings, and deduplicates in order. -/
def legacyEmails (store : KVStore) (keys : List String) : List String :=
  (((keys.map store.sets).flatten).filter (fun v => v ≠ "")).foldl addUnique []

/-- buildLegacyEmailSubmission is the submission object of the legacy
branch of the current implementation (payload spread first, explicit
fields after, the shorter field list of that branch). -/
def buildLegacyEmailSubmission (partnerId normalizedId : String) (record : Obj) : Obj :=
  let payload := parsePayload record
  let totalPrice := numOr0 (jor (pget payload "totalPrice") (jor (fget record "totalPrice") (.num 0)))
  let estimatedPoints := numOr0 (jor (pget payload "estimatedPoints")
    (jor (fget record "estimatedPoints") (.num 0)))
  let pointsAwarded := numOr0 (jor (fget record "pointsAwarded")
    (jor (pget payload "pointsAwarded") (.num 0)))
  let used := (candValues record payload "used").any (truthyStatuses.contains ·)
  let visited := (candValues record payload "visited").any (visitedStatuses.contains ·)
    || jsLower (jsToString (jor (fget record "visited") (.str ""))) = "true"
    || truthy (fget record "visitedAt") || truthy (pget payload "visitedAt")
  let createdAt := createdAtChain record payload
  let scannedAt := jor (fget record "scannedAt") (jor (pget payload "scannedAt") .null)
  let canonical := if normalizedId ≠ "" then normalizedId else jsTrim partnerId
  (((((((((((spreadInto [] payload).insert
    "partnerId" (.str canonical)).insert
    "email" (fget record "email")).insert
    "used" (.bool used)).insert
    "createdAt" createdAt).insert
    "scannedAt" scannedAt).insert
    "totalPrice" (.num totalPrice)).insert
    "estimatedPoints" (.num (if pointsAwarded ≠ 0 then pointsAwarded else estimatedPoints))).insert
    "pointsAwarded" (.num pointsAwarded)).insert
    "visited" (.bool visited)).insert
    "visitedAt" (jor (fget record "visitedAt") (jor (pget payload "visitedAt") .null))).insert
    "originalPayload" payload

/-- visitSubmissionsOf is the visit-set branch of the current
implementation: over the deduplicated member pool, resolve each record
(with the legacy fallback and merge) and build a submission from every
nonempty result. -/
def visitSubmissionsOf (store : KVStore) (partnerId normalizedId : String) : List Obj :=
  (visitRecordKeys store (visitSetKeys partnerId normalizedId)).filterMap (fun visitKey =>
    let record := resolveRecord store visitKey
    if record.isEmpty then none
    else some (buildVisitSubmission partnerId normalizedId visitKey record))

/-- legacyEmailSubmissionsOf is the per-email loop of the legacy branch of
the current implementation: fetch each legacy record, skip those without a
truthy email field, build a submission from the rest. -/
def legacyEmailSubmissionsOf (store : KVStore) (partnerId normalizedId : String)
    (emails : List String) : List Obj :=
  emails.filterMap (fun email =>
    let record := store.hashes ("qr:email:" ++ email)
    if truthy (fget record "email") then
      some (buildLegacyEmailSubmission partnerId normalizedId record)
    else none)

/-- loadPartnerData is the current implementation (partner-data.js): the
visit-set branch over the resolved member pool, the legacy email branch
when it yields nothing, the early empty returns, and the common sorted
aggregation tail. -/
def loadPartnerData (store : KVStore) (partnerId : String) : LoadResult :=
  let normalizedId := normalizePartnerId partnerId
  if normalizedId = "" ∧ partnerId = "" then
    { partnerId := partnerId, submissions := [], metrics := EMPTY_METRICS, partnerLabel := .null }
  else
    let visitSubs := visitSubmissionsOf store partnerId normalizedId
    match visitSubs with
    | _ :: _ => finishResult partnerId visitSubs
    | [] =>
      let emails := legacyEmails store (legacyKeys partnerId normalizedId)
      if emails = [] then
        { partnerId := partnerId, submissions := [], metrics := EMPTY_METRICS, partnerLabel := .null }
      else
        finishResult partnerId (legacyEmailSubmissionsOf store partnerId normalizedId emails)

/-- legacySubmissionOf is the submission object of the legacy file
(part_006): the explicit fields first and the payload spread LAST, so
payload keys win over the explicit fields; used and visited are the bare
string-equality checks of that file. -/
def legacySubmissionOf (partnerId normalizedId : String) (record : Obj) : Obj :=
  let payload := parsePayload record
  let totalPrice := numOr0 (jor (pget payload "totalPrice") (jor (fget record "totalPrice") (.num 0)))
  let estimatedPoints := numOr0 (jor (pget payload "estimatedPoints")
    (jor (fget record "estimatedPoints") (.num 0)))
  let visited := jsLower (jsToString (jor (fget record "visited") (.str ""))) = "true"
  let used := jsLower (jsToString (jor (fget record "used") (.str ""))) = "true"
  let canonical := if normalizedId ≠ "" then normalizedId else jsTrim partnerId
  let base : Obj := ((((((((((Obj.insert []
    "partnerId" (.str canonical)).insert
    "email" (fget record "email")).insert
    "used" (.bool used)).insert
    "createdAt" (jor (fget record "createdAt") .null)).insert
    "scannedAt" (jor (fget record "scannedAt") .null)).insert
    "totalPrice" (.num totalPrice)).insert
    "estimatedPoints" (.num estimatedPoints)).insert
    "visited" (.bool visited)).insert
    "visitedAt" (jor (fget record "visitedAt") .null)).insert
    "originalPayload" payload)
  spreadInto base payload

/-- legacyPointsContrib is the per-submission points term of the legacy
file: Number(submission.estimatedPoints || 0), with no pointsAwarded
override. -/
def legacyPointsContrib (s : Obj) : Option Int := toNumber (jor (fget s "estimatedPoints") (.num 0))

/-- isBonusStrict is the bonus test of the legacy file: the strict
equality submission.ticket === the BonusReward literal. -/
def isBonusStrict (s : Obj) : Bool :=
  match Obj.get s "ticket" with
  | some (.str t) => t = "BonusReward"
  | _ => false

/-- legacyFinishResult is the sorted aggregation tail of the legacy file
(same sort and label scan, its own points term and bonus test). -/
def legacyFinishResult (partnerId : String) (submissions : List Obj) : LoadResult :=
  let sorted := jsSort submissions
  { partnerId := partnerId, submissions := sorted,
    metrics := aggregateMetrics legacyPointsContrib isBonusStrict sorted,
    partnerLabel := findPartnerLabel sorted }

/-- loadPartnerDataLegacy is the near-duplicate legacy implementation
(src/unnamed/part_006): only the legacy email-set path, with its own
submission shape and aggregation. -/
def loadPartnerDataLegacy (store : KVStore) (partnerId : String) : LoadResult :=
  let normalizedId := normalizePartnerId partnerId
  if normalizedId = "" ∧ partnerId = "" then
    { partnerId := partnerId, submissions := [], metrics := EMPTY_METRICS, partnerLabel := .null }
  else
    let emails := legacyEmails store (legacyKeys partnerId normalizedId)
    if emails = [] then
      { partnerId := partnerId, submissions := [], metrics := EMPTY_METRICS, partnerLabel := .null }
    else
      legacyFinishResult partnerId (emails.filterMap (fun email =>
        let record := store.hashes ("qr:email:" ++ email)
        if truthy (fget record "email") then
          some (legacySubmissionOf partnerId normalizedId record)
        else none))


/-- timeDescLe is the total descending-time order that the source
comparator agrees with on submissions whose time value is not NaN. -/
def timeDescLe (a b : Obj) : Bool := (subTime b).getD 0 ≤ (subTime a).getD 0

/-- qrKeyOf projects the qrKey field of a submission as a string (empty
when absent or not a string), giving a decidable handle on which member
key produced a submission. -/
def qrKeyOf (s : Obj) : String :=
  match Obj.get s "qrKey" with
  | some (.str t) => t
  | _ => ""

/-- emptyStore is a key-value store with no data at all. -/
def emptyStore : KVStore := { sets := fun _ => [], hashes := fun _ => [] }

/-- store1 holds the dual-representation scenario the spec fixes: a
current visit record (visited true, visitedAt, no totalPrice) and a
legacy record (totalPrice 100, no visited) for the same email. -/
def store1 : KVStore :=
  { sets := fun k => if k = "partner:visits:p1" then ["qr:a@x.com:P1:v1"] else [],
    hashes := fun k =>
      if k = "qr:a@x.com:P1:v1" then
        [("visited", .str "true"), ("visitedAt", .str "2024-01-01")]
      else if k = "qr:email:a@x.com" then
        [("email", .str "a@x.com"), ("totalPrice", .str "100")]
      else [] }

/-- store4 holds three visits whose createdAt values are an unparseable
string and two ISO dates, in store order unparseable first. -/
def store4 : KVStore :=
  { sets := fun k => if k = "partner:visits:p" then ["qr:a:p:1", "qr:b:p:2", "qr:c:p:3"] else [],
    hashes := fun k =>
      if k = "qr:a:p:1" then [("email", .str "a"), ("createdAt", .str "not-a-date")]
      else if k = "qr:b:p:2" then [("email", .str "b"), ("createdAt", .str "1970-01-02")]
      else if k = "qr:c:p:3" then [("email", .str "c"), ("createdAt", .str "1970-01-03")]
      else [] }

/-- storeC4w holds three visits with parseable ISO dates, for the sorted
case of the sort theorem. -/
def storeC4w : KVStore :=
  { sets := fun k => if k = "partner:visits:p" then ["qr:a:p:1", "qr:b:p:2", "qr:c:p:3"] else [],
    hashes := fun k =>
      if k = "qr:a:p:1" then [("email", .str "a"), ("createdAt", .str "2024-01-02")]
      else if k = "qr:b:p:2" then [("email", .str "b"), ("createdAt", .str "2024-03-01")]
      else if k = "qr:c:p:3" then [("email", .str "c"), ("createdAt", .str "2024-02-01")]
      else [] }

/-- store5 holds visit-set members only under the mixed-case key
partner:visits:AbC. -/
def store5 : KVStore :=
  { sets := fun k => if k = "partner:visits:AbC" then ["qr:a:abc:1"] else [],
    hashes := fun k => if k = "qr:a:abc:1" then [("email", .str "a@x")] else [] }

/-- store5n holds visit-set members only under the normalized key
partner:visits:abc. -/
def store5n : KVStore :=
  { sets := fun k => if k = "partner:visits:abc" then ["qr:a:abc:1"] else [],
    hashes := fun k => if k = "qr:a:abc:1" then [("email", .str "a@x")] else [] }

/-- store6 holds one visit whose payload carries ticket BONUSREWARD,
differing from the BonusReward literal only by case. -/
def store6 : KVStore :=
  { sets := fun k => if k = "partner:visits:p" then ["qr:u@x:p:v1"] else [],
    hashes := fun k =>
      if k = "qr:u@x:p:v1" then [("payload", .str "\x7b\"ticket\":\"BONUSREWARD\"\x7d")]
      else [] }

/-- store8 holds a legacy email set under the whitespace key
partner-colon-three-spaces, reachable only by the unnormalised identifier. -/
def store8 : KVStore :=
  { sets := fun k => if k = "partner:   " then ["u@x"] else [],
    hashes := fun k => if k = "qr:email:u@x" then [("email", .str "u@x")] else [] }

/-- store9 holds one legacy record with both estimatedPoints 10 and
pointsAwarded 50, on which the two implementations disagree. -/
def store9 : KVStore :=
  { sets := fun k => if k = "partner:p" then ["u@x"] else [],
    hashes := fun k =>
      if k = "qr:email:u@x" then
        [("email", .str "u@x"), ("estimatedPoints", .str "10"), ("pointsAwarded", .str "50")]
      else [] }

/-- storeAvg holds the three-visit aggregation scenario of the spec:
totalPrice 100/200/0 with estimatedPoints 10/20/5. -/
def storeAvg : KVStore :=
  { sets := fun k => if k = "partner:visits:p" then ["qr:a:p:1", "qr:b:p:2", "qr:c:p:3"] else [],
    hashes := fun k =>
      if k = "qr:a:p:1" then
        [("email", .str "a"), ("totalPrice", .str "100"), ("estimatedPoints", .str "10")]
      else if k = "qr:b:p:2" then
        [("email", .str "b"), ("totalPrice", .str "200"), ("estimatedPoints", .str "20")]
      else if k = "qr:c:p:3" then
        [("email", .str "c"), ("totalPrice", .str "0"), ("estimatedPoints", .str "5")]
      else [] }

/-- rec3 is a record whose payload has a ticket field both at the outer
level (A) and inside the nested data string (B). -/
def rec3 : Obj :=
  [("payload", .str "\x7b\"ticket\":\"A\",\"data\":\"\x7b\\\"ticket\\\":\\\"B\\\"\x7d\"\x7d")]

/-- rec3b is the double-encoded scenario record of the spec: the outer
payload carries only the data string, which decodes to ticket VIP and
totalPrice 500. -/
def rec3b : Obj :=
  [("payload",
    .str "\x7b\"data\":\"\x7b\\\"ticket\\\":\\\"VIP\\\",\\\"totalPrice\\\":500\x7d\"\x7d")]

/-- ObjWF is the well-formedness real JavaScript objects enjoy: no
duplicate keys.  Arbitrary Obj values drawn from a KVStore may violate it,
so merge theorems assume it of the records they merge. -/
def ObjWF (o : Obj) : Prop := (o.map Prod.fst).Nodup

instance instDecidableObjWF (o : Obj) : Decidable (ObjWF o) := by
  unfold ObjWF; exact inferInstance

theorem Obj.get_insert (o : Obj) (k : String) (v : JsonVal) (k' : String) :
    (o.insert k v).get k' = if k' = k then some v else o.get k' := by
  induction o with
  | nil =>
      simp only [Obj.insert, Obj.get]
      split_ifs with h1 h2 <;> simp_all
  | cons p rest ih =>
      obtain ⟨k0, v0⟩ := p
      simp only [Obj.insert]
      by_cases h0 : k0 = k
      · rw [if_pos h0]
        subst h0
        clear ih
        simp only [Obj.get]
        split_ifs <;> simp_all
      · rw [if_neg h0]
        simp only [Obj.get, ih]
        clear ih
        split_ifs <;> simp_all

theorem Obj.get_eq_none_of_not_mem (o : Obj) (k : String)
    (h : k ∉ o.map Prod.fst) : o.get k = none := by
  induction o with
  | nil => rfl
  | cons p rest ih =>
      obtain ⟨k0, v0⟩ := p
      simp only [List.map_cons, List.mem_cons, not_or] at h
      simp only [Obj.get]
      rw [if_neg (fun he => h.1 he.symm)]
      exact ih h.2

theorem Obj.insert_ne_nil (o : Obj) (k : String) (v : JsonVal) : o.insert k v ≠ [] := by
  cases o with
  | nil => simp [Obj.insert]
  | cons p rest =>
      obtain ⟨k0, v0⟩ := p
      simp only [Obj.insert]
      split_ifs <;> simp

theorem foldl_insert_get (fields : List (String × JsonVal)) (o : Obj) (k : String)
    (hwf : (fields.map Prod.fst).Nodup) :
    (fields.foldl (fun acc p => acc.insert p.1 p.2) o).get k
      = (Obj.get fields k <|> o.get k) := by
  induction fields generalizing o with
  | nil => simp [Obj.get]
  | cons p rest ih =>
      obtain ⟨k0, v0⟩ := p
      simp only [List.map_cons, List.nodup_cons] at hwf
      simp only [List.foldl_cons]
      rw [ih _ hwf.2]
      by_cases h0 : k0 = k
      · subst h0
        have hrest : Obj.get rest k0 = none :=
          Obj.get_eq_none_of_not_mem rest k0 hwf.1
        rw [hrest]
        simp only [Obj.get, if_pos rfl, Obj.get_insert]
        simp
      · have h1 : Obj.get ((k0, v0) :: rest : Obj) k = Obj.get rest k := by
          simp only [Obj.get]; rw [if_neg h0]
        rw [h1, Obj.get_insert, if_neg (fun h : k = k0 => h0 h.symm)]

theorem foldl_insert_ne_nil (fields : List (String × JsonVal)) (o : Obj)
    (h : o ≠ []) : fields.foldl (fun acc p => acc.insert p.1 p.2) o ≠ [] := by
  induction fields generalizing o with
  | nil => exact h
  | cons p rest ih =>
      simp only [List.foldl_cons]
      exact ih _ (Obj.insert_ne_nil o p.1 p.2)

theorem get_spreadInto_obj (o : Obj) (fields : List (String × JsonVal)) (k : String)
    (hwf : (fields.map Prod.fst).Nodup) :
    (spreadInto o (.obj fields)).get k = (Obj.get fields k <|> o.get k) :=
  foldl_insert_get fields o k hwf

theorem get_merged (leg cur : Obj) (k : String) (hl : ObjWF leg) (hc : ObjWF cur) :
    (spreadInto (spreadInto [] (.obj leg)) (.obj cur)).get k
      = (Obj.get cur k <|> Obj.get leg k) := by
  rw [get_spreadInto_obj _ _ _ hc, get_spreadInto_obj _ _ _ hl]
  cases Obj.get cur k <;> cases Obj.get leg k <;> simp [Obj.get]

theorem merged_ne_nil (leg cur : Obj) (h : cur ≠ []) :
    spreadInto (spreadInto [] (.obj leg)) (.obj cur) ≠ [] := by
  cases cur with
  | nil => exact absurd rfl h
  | cons p rest =>
      simp only [spreadInto, List.foldl_cons]
      exact foldl_insert_ne_nil _ _ (Obj.insert_ne_nil _ _ _)

theorem mem_addUnique {l : List String} {s a : String} :
    a ∈ addUnique l s ↔ a ∈ l ∨ a = s := by
  unfold addUnique
  split_ifs with h
  · constructor
    · exact Or.inl
    · rintro (ha | rfl)
      · exact ha
      · exact h
  · simp

theorem addUnique_nodup {l : List String} {s : String} (h : l.Nodup) :
    (addUnique l s).Nodup := by
  unfold addUnique
  split_ifs with hs
  · exact h
  · simp [List.nodup_append, h, hs]

theorem addUnique_mono {l : List String} {s a : String} (h : a ∈ l) : a ∈ addUnique l s :=
  mem_addUnique.mpr (Or.inl h)

theorem mem_addUnique_self {l : List String} {s : String} : s ∈ addUnique l s :=
  mem_addUnique.mpr (Or.inr rfl)

theorem addVisitKeyVariant_nodup {acc : List String} {v : String} (h : acc.Nodup) :
    (addVisitKeyVariant acc v).Nodup := by
  unfold addVisitKeyVariant
  by_cases h1 : v = ""
  · rw [if_pos h1]; exact h
  · rw [if_neg h1]
    show (if jsTrim v = "" then acc else addUnique acc ("partner:visits:" ++ jsTrim v)).Nodup
    by_cases h2 : jsTrim v = ""
    · rw [if_pos h2]; exact h
    · rw [if_neg h2]; exact addUnique_nodup h

theorem addVisitKeyVariant_mono {acc : List String} {v a : String} (h : a ∈ acc) :
    a ∈ addVisitKeyVariant acc v := by
  unfold addVisitKeyVariant
  by_cases h1 : v = ""
  · rw [if_pos h1]; exact h
  · rw [if_neg h1]
    show a ∈ (if jsTrim v = "" then acc else addUnique acc ("partner:visits:" ++ jsTrim v))
    by_cases h2 : jsTrim v = ""
    · rw [if_pos h2]; exact h
    · rw [if_neg h2]; exact addUnique_mono h

theorem visitSetKeys_nodup (pid n : String) : (visitSetKeys pid n).Nodup := by
  unfold visitSetKeys
  split_ifs <;>
    repeat' first
      | exact List.nodup_nil
      | apply addVisitKeyVariant_nodup

theorem innerFold_nodup (ms : List String) (acc : List String) (h : acc.Nodup) :
    (ms.foldl (fun acc m => if m ≠ "" ∧ startsWithQr m then addUnique acc m else acc) acc).Nodup := by
  induction ms generalizing acc with
  | nil => exact h
  | cons m rest ih =>
      simp only [List.foldl_cons]
      apply ih
      by_cases hc : m ≠ "" ∧ startsWithQr m
      · rw [if_pos hc]; exact addUnique_nodup h
      · rw [if_neg hc]; exact h

theorem visitRecordKeys_nodup (store : KVStore) (keys : List String) :
    (visitRecordKeys store keys).Nodup := by
  unfold visitRecordKeys
  suffices hgen : ∀ (ks : List String) (acc : List String), acc.Nodup →
      (ks.foldl (fun acc k =>
        (store.sets k).foldl
          (fun acc m => if m ≠ "" ∧ startsWithQr m then addUnique acc m else acc) acc) acc).Nodup by
    exact hgen keys [] List.nodup_nil
  intro ks
  induction ks with
  | nil => exact fun acc h => h
  | cons k rest ih =>
      intro acc hacc
      simp only [List.foldl_cons]
      exact ih _ (innerFold_nodup _ _ hacc)

theorem visitRecordKeys_of_empty_sets (store : KVStore) (keys : List String)
    (h : ∀ k, store.sets k = []) : visitRecordKeys store keys = [] := by
  unfold visitRecordKeys
  suffices hgen : ∀ (ks : List String) (acc : List String),
      (ks.foldl (fun acc k =>
        (store.sets k).foldl
          (fun acc m => if m ≠ "" ∧ startsWithQr m then addUnique acc m else acc) acc) acc) = acc by
    exact hgen keys []
  intro ks
  induction ks with
  | nil => exact fun acc => rfl
  | cons k rest ih =>
      intro acc
      simp only [List.foldl_cons, h k, List.foldl_nil]
      exact ih acc

theorem legacyEmails_of_empty_sets (store : KVStore) (keys : List String)
    (h : ∀ k, store.sets k = []) : legacyEmails store keys = [] := by
  have hflat : (keys.map store.sets).flatten = [] := by
    induction keys with
    | nil => rfl
    | cons k rest ih => simp [h, ih]
  simp [legacyEmails, hflat]

theorem jsMergeF_eq (le : α → α → Bool) :
    ∀ (fuel : Nat) (xs ys : List α), xs.length + ys.length ≤ fuel →
      jsMergeF le fuel xs ys = List.merge xs ys le := by
  intro fuel
  induction fuel with
  | zero =>
      intro xs ys h
      have hx : xs = [] := List.eq_nil_of_length_eq_zero (by omega)
      have hy : ys = [] := List.eq_nil_of_length_eq_zero (by omega)
      subst hx; subst hy; simp [jsMergeF]
  | succ fuel ih =>
      intro xs ys h
      match xs, ys with
      | [], ys => simp [jsMergeF]
      | x :: xs, [] => simp [jsMergeF]
      | x :: xs, y :: ys =>
          rw [List.cons_merge_cons]
          simp only [jsMergeF]
          by_cases hle : le x y
          · rw [if_pos hle, if_pos hle, ih]
            simp only [List.length_cons] at h ⊢
            omega
          · rw [if_neg hle, if_neg hle, ih]
            simp only [List.length_cons] at h ⊢
            omega

theorem jsMergeSortF_eq (le : α → α → Bool) :
    ∀ (fuel : Nat) (l : List α), l.length ≤ fuel →
      jsMergeSortF le fuel l = List.mergeSort l le := by
  intro fuel
  induction fuel with
  | zero =>
      intro l h
      have hl : l = [] := List.eq_nil_of_length_eq_zero (by omega)
      subst hl; simp [jsMergeSortF]
  | succ fuel ih =>
      intro l h
      match l with
      | [] => simp [jsMergeSortF]
      | [a] => simp [jsMergeSortF]
      | a :: b :: xs =>
          show jsMergeF le (a :: b :: xs).length _ _ = _
          rw [ih _ (by simp only [List.length_take, List.length_cons] at h ⊢; omega)]
          rw [ih _ (by simp only [List.length_drop, List.length_cons] at h ⊢; omega)]
          rw [jsMergeF_eq le _ _ _ (by
            simp only [List.length_mergeSort, List.length_take, List.length_drop,
              List.length_cons]
            omega)]
          rw [List.mergeSort]
          congr 1 <;> simp [List.splitInTwo_fst, List.splitInTwo_snd]

theorem jsSort_eq (l : List Obj) : jsSort l = List.mergeSort l jsSortLe :=
  jsMergeSortF_eq jsSortLe l.length l (le_refl _)

theorem jsMergeF_mem (le : α → α → Bool) :
    ∀ (fuel : Nat) (xs ys : List α) (a : α), a ∈ jsMergeF le fuel xs ys → a ∈ xs ∨ a ∈ ys := by
  intro fuel
  induction fuel with
  | zero => intro xs ys a h; exact (List.mem_append.mp h)
  | succ fuel ih =>
      intro xs ys a h
      match xs, ys with
      | [], ys => exact Or.inr h
      | x :: xs, [] => exact Or.inl h
      | x :: xs, y :: ys =>
          simp only [jsMergeF] at h
          split_ifs at h with hle
          · rcases List.mem_cons.mp h with rfl | h'
            · exact Or.inl (List.mem_cons_self _ _)
            · rcases ih _ _ _ h' with h1 | h2
              · exact Or.inl (List.mem_cons_of_mem _ h1)
              · exact Or.inr h2
          · rcases List.mem_cons.mp h with rfl | h'
            · exact Or.inr (List.mem_cons_self _ _)
            · rcases ih _ _ _ h' with h1 | h2
              · exact Or.inl h1
              · exact Or.inr (List.mem_cons_of_mem _ h2)

theorem jsMergeSortF_mem (le : α → α → Bool) :
    ∀ (fuel : Nat) (l : List α) (a : α), a ∈ jsMergeSortF le fuel l → a ∈ l := by
  intro fuel
  induction fuel with
  | zero => intro l a h; exact h
  | succ fuel ih =>
      intro l a h
      match l with
      | [] => exact h
      | [b] => exact h
      | b :: c :: xs =>
          rcases jsMergeF_mem le _ _ _ a h with h1 | h2
          · exact List.mem_of_mem_take (ih _ _ h1)
          · exact List.mem_of_mem_drop (ih _ _ h2)

theorem jsMergeF_congr (le₁ le₂ : α → α → Bool) :
    ∀ (fuel : Nat) (xs ys : List α),
      (∀ a ∈ xs, ∀ b ∈ ys, le₁ a b = le₂ a b) →
      jsMergeF le₁ fuel xs ys = jsMergeF le₂ fuel xs ys := by
  intro fuel
  induction fuel with
  | zero => intro xs ys _; rfl
  | succ fuel ih =>
      intro xs ys h
      match xs, ys with
      | [], ys => rfl
      | x :: xs, [] => rfl
      | x :: xs, y :: ys =>
          simp only [jsMergeF]
          rw [h x (List.mem_cons_self _ _) y (List.mem_cons_self _ _)]
          by_cases hle : le₂ x y
          · rw [if_pos hle, if_pos hle]
            rw [ih _ _ (fun a ha b hb => h a (List.mem_cons_of_mem _ ha) b hb)]
          · rw [if_neg hle, if_neg hle]
            rw [ih _ _ (fun a ha b hb => h a ha b (List.mem_cons_of_mem _ hb))]

theorem jsMergeSortF_congr (le₁ le₂ : α → α → Bool) :
    ∀ (fuel : Nat) (l : List α),
      (∀ a ∈ l, ∀ b ∈ l, le₁ a b = le₂ a b) →
      jsMergeSortF le₁ fuel l = jsMergeSortF le₂ fuel l := by
  intro fuel
  induction fuel with
  | zero => intro l _; rfl
  | succ fuel ih =>
      intro l h
      match l with
      | [] => rfl
      | [a] => rfl
      | a :: b :: xs =>
          simp only [jsMergeSortF]
          rw [ih _ (fun a' ha b' hb =>
            h a' (List.mem_of_mem_take ha) b' (List.mem_of_mem_take hb))]
          rw [ih _ (fun a' ha b' hb =>
            h a' (List.mem_of_mem_drop ha) b' (List.mem_of_mem_drop hb))]
          apply jsMergeF_congr
          intro a' ha b' hb
          exact h a' (List.mem_of_mem_take (jsMergeSortF_mem le₂ _ _ _ ha))
            b' (List.mem_of_mem_drop (jsMergeSortF_mem le₂ _ _ _ hb))

theorem jsSortLe_eq_timeDescLe {a b : Obj} (ha : (subTime a).isSome)
    (hb : (subTime b).isSome) : jsSortLe a b = timeDescLe a b := by
  obtain ⟨ta, hta⟩ := Option.isSome_iff_exists.mp ha
  obtain ⟨tb, htb⟩ := Option.isSome_iff_exists.mp hb
  unfold jsSortLe jsSortCmp timeDescLe
  simp only [hta, htb, Option.getD_some]
  exact decide_eq_decide.mpr (by omega)

theorem jsSort_pairwise_of_times (l : List Obj) (h : ∀ s ∈ l, (subTime s).isSome) :
    (jsSort l).Pairwise (fun a b => (subTime b).getD 0 ≤ (subTime a).getD 0) := by
  have hcongr : jsMergeSortF jsSortLe l.length l = jsMergeSortF timeDescLe l.length l :=
    jsMergeSortF_congr _ _ _ _ (fun a ha b hb => jsSortLe_eq_timeDescLe (h a ha) (h b hb))
  have heq : jsSort l = List.mergeSort l timeDescLe := by
    rw [jsSort, hcongr]; exact jsMergeSortF_eq _ _ _ (le_refl _)
  rw [heq]
  have hs := @List.sorted_mergeSort Obj timeDescLe
    (fun a b c hab hbc => by
      simp only [timeDescLe, decide_eq_true_eq] at hab hbc ⊢; omega)
    (fun a b => by
      simp only [timeDescLe, Bool.or_eq_true, decide_eq_true_eq]; omega) l
  exact hs.imp (fun hab => by simpa [timeDescLe, decide_eq_true_eq] using hab)

theorem jsSort_perm (l : List Obj) : (jsSort l).Perm l := by
  rw [jsSort_eq]; exact List.mergeSort_perm l jsSortLe

theorem aggregateMetrics_points (pc : Obj → Option Int) (ib : Obj → Bool) (subs : List Obj) :
    (aggregateMetrics pc ib subs).points = (subs.map pc).foldl addJs (some 0) := by
  unfold aggregateMetrics
  suffices hgen : ∀ (ss : List Obj) (acc : MAcc),
      (ss.foldl (fun (acc : MAcc) s =>
        { revenue := addJs acc.revenue (revenueContrib s),
          points := addJs acc.points (pc s),
          used := acc.used + (if truthy (fget s "used") then 1 else 0),
          visitedCount := acc.visitedCount + (if truthy (fget s "visited") then 1 else 0),
          bonusRedemptions := acc.bonusRedemptions + (if ib s then 1 else 0) }) acc).points
        = (ss.map pc).foldl addJs acc.points by
    exact hgen subs _
  intro ss
  induction ss with
  | nil => intro acc; rfl
  | cons s rest ih => intro acc; simp only [List.foldl_cons, List.map_cons]; exact ih _

theorem aggregateMetrics_bonus (pc : Obj → Option Int) (ib : Obj → Bool) (subs : List Obj) :
    (aggregateMetrics pc ib subs).bonusRedemptions = (subs.countP ib : Int) := by
  unfold aggregateMetrics
  suffices hgen : ∀ (ss : List Obj) (acc : MAcc),
      (ss.foldl (fun (acc : MAcc) s =>
        { revenue := addJs acc.revenue (revenueContrib s),
          points := addJs acc.points (pc s),
          used := acc.used + (if truthy (fget s "used") then 1 else 0),
          visitedCount := acc.visitedCount + (if truthy (fget s "visited") then 1 else 0),
          bonusRedemptions := acc.bonusRedemptions + (if ib s then 1 else 0) }) acc).bonusRedemptions
        = acc.bonusRedemptions + (ss.countP ib : Int) by
    have h := hgen subs
      { revenue := some 0, points := some 0, used := 0, visitedCount := 0, bonusRedemptions := 0 }
    simpa using h
  intro ss
  induction ss with
  | nil => intro acc; simp [List.countP_nil]
  | cons s rest ih =>
      intro acc
      simp only [List.foldl_cons, List.countP_cons]
      rw [ih]
      by_cases hb : ib s
      · simp only [hb, if_pos, Nat.cast_add, Nat.cast_one]
        ring
      · simp [hb]

theorem aggregateMetrics_avg (pc : Obj → Option Int) (ib : Obj → Bool) (subs : List Obj) :
    (aggregateMetrics pc ib subs).averageRevenue
        = (if (aggregateMetrics pc ib subs).count ≠ 0 then
            (aggregateMetrics pc ib subs).revenue.map
              (fun r => jsRound r (aggregateMetrics pc ib subs).count)
           else some 0)
      ∧ (aggregateMetrics pc ib subs).averagePoints
        = (if (aggregateMetrics pc ib subs).count ≠ 0 then
            (aggregateMetrics pc ib subs).points.map
              (fun p => jsRound p (aggregateMetrics pc ib subs).count)
           else some 0) := by
  constructor <;> rfl

theorem visitSubmissionsOf_empty_id (store : KVStore) :
    visitSubmissionsOf store "" "" = [] := rfl

theorem loadPartnerData_of_visitSubs_ne (store : KVStore) (pid : String)
    (h : visitSubmissionsOf store pid (normalizePartnerId pid) ≠ []) :
    loadPartnerData store pid
      = finishResult pid (visitSubmissionsOf store pid (normalizePartnerId pid)) := by
  have hpid : ¬(normalizePartnerId pid = "" ∧ pid = "") := by
    rintro ⟨h1, rfl⟩
    exact h (visitSubmissionsOf_empty_id store)
  unfold loadPartnerData
  rw [if_neg hpid]
  cases hv : visitSubmissionsOf store pid (normalizePartnerId pid) with
  | nil => exact absurd hv h
  | cons a l => rfl

theorem loadPartnerData_submissions_cases (store : KVStore) (pid : String) :
    (loadPartnerData store pid).submissions = [] ∨
    (loadPartnerData store pid).submissions
      = jsSort (visitSubmissionsOf store pid (normalizePartnerId pid)) ∨
    (loadPartnerData store pid).submissions
      = jsSort (legacyEmailSubmissionsOf store pid (normalizePartnerId pid)
          (legacyEmails store (legacyKeys pid (normalizePartnerId pid)))) := by
  unfold loadPartnerData
  by_cases h0 : normalizePartnerId pid = "" ∧ pid = ""
  · rw [if_pos h0]; exact Or.inl rfl
  · rw [if_neg h0]
    cases hv : visitSubmissionsOf store pid (normalizePartnerId pid) with
    | nil =>
        dsimp only
        by_cases he : legacyEmails store (legacyKeys pid (normalizePartnerId pid)) = []
        · rw [if_pos he]; exact Or.inl rfl
        · rw [if_neg he]; exact Or.inr (Or.inr rfl)
    | cons a l =>
        exact Or.inr (Or.inl rfl)

theorem mem_visitSubmissionsOf {store : KVStore} {pid n : String} {s : Obj}
    (h : s ∈ visitSubmissionsOf store pid n) :
    ∃ k, k ∈ visitRecordKeys store (visitSetKeys pid n)
      ∧ (resolveRecord store k).isEmpty = false
      ∧ s = buildVisitSubmission pid n k (resolveRecord store k) := by
  unfold visitSubmissionsOf at h
  obtain ⟨k, hk, hsome⟩ := List.mem_filterMap.mp h
  by_cases he : (resolveRecord store k).isEmpty
  · rw [if_pos he] at hsome; exact absurd hsome (by simp)
  · rw [if_neg he] at hsome
    exact ⟨k, hk, by simpa using he, (Option.some_inj.mp hsome).symm⟩

theorem mem_legacyEmailSubmissionsOf {store : KVStore} {pid n : String}
    {emails : List String} {s : Obj}
    (h : s ∈ legacyEmailSubmissionsOf store pid n emails) :
    ∃ e, e ∈ emails
      ∧ truthy (fget (store.hashes ("qr:email:" ++ e)) "email") = true
      ∧ s = buildLegacyEmailSubmission pid n (store.hashes ("qr:email:" ++ e)) := by
  unfold legacyEmailSubmissionsOf at h
  obtain ⟨e, he, hsome⟩ := List.mem_filterMap.mp h
  by_cases ht : truthy (fget (store.hashes ("qr:email:" ++ e)) "email")
  · rw [if_pos ht] at hsome
    exact ⟨e, he, ht, (Option.some_inj.mp hsome).symm⟩
  · rw [if_neg ht] at hsome; exact absurd hsome (by simp)

theorem bv_get_pointsAwarded (pid n k : String) (r : Obj) :
    Obj.get (buildVisitSubmission pid n k r) "pointsAwarded"
      = some (.num (visitPointsAwarded r (parsePayload r))) := by
  unfold buildVisitSubmission
  simp only [Obj.get_insert]
  simp

theorem bv_get_estimatedPoints (pid n k : String) (r : Obj) :
    Obj.get (buildVisitSubmission pid n k r) "estimatedPoints"
      = some (.num (if visitPointsAwarded r (parsePayload r) ≠ 0
          then visitPointsAwarded r (parsePayload r)
          else visitEstimatedPoints r (parsePayload r))) := by
  unfold buildVisitSubmission
  simp only [Obj.get_insert]
  simp

theorem bv_get_qrKey (pid n k : String) (r : Obj) :
    Obj.get (buildVisitSubmission pid n k r) "qrKey" = some (.str k) := by
  unfold buildVisitSubmission
  simp only [Obj.get_insert]
  simp

theorem bv_get_totalPrice (pid n k : String) (r : Obj) :
    Obj.get (buildVisitSubmission pid n k r) "totalPrice"
      = some (.num (visitTotalPrice r (parsePayload r))) := by
  unfold buildVisitSubmission
  simp only [Obj.get_insert]
  simp

theorem ble_get_pointsAwarded (pid n : String) (r : Obj) :
    Obj.get (buildLegacyEmailSubmission pid n r) "pointsAwarded"
      = some (.num (numOr0 (jor (fget r "pointsAwarded")
          (jor (pget (parsePayload r) "pointsAwarded") (.num 0))))) := by
  unfold buildLegacyEmailSubmission
  simp only [Obj.get_insert]
  simp

theorem ble_get_estimatedPoints (pid n : String) (r : Obj) :
    Obj.get (buildLegacyEmailSubmission pid n r) "estimatedPoints"
      = some (.num
          (if numOr0 (jor (fget r "pointsAwarded")
              (jor (pget (parsePayload r) "pointsAwarded") (.num 0))) ≠ 0
           then numOr0 (jor (fget r "pointsAwarded")
              (jor (pget (parsePayload r) "pointsAwarded") (.num 0)))
           else numOr0 (jor (pget (parsePayload r) "estimatedPoints")
              (jor (fget r "estimatedPoints") (.num 0))))) := by
  unfold buildLegacyEmailSubmission
  simp only [Obj.get_insert]
  simp

theorem pointsContrib_of_gets {s : Obj} {pa est : Int}
    (hpa : Obj.get s "pointsAwarded" = some (.num pa))
    (hest : Obj.get s "estimatedPoints" = some (.num (if pa ≠ 0 then pa else est))) :
    pointsContrib s = some (if pa ≠ 0 then pa else est) := by
  unfold pointsContrib fget
  rw [hpa, hest]
  simp only [Option.getD_some]
  by_cases hz : pa = 0
  · subst hz
    simp only [truthy]
    norm_num
    by_cases he : est = 0
    · subst he; simp [jor, truthy, toNumber]
    · simp [jor, truthy, he, toNumber]
  · simp [truthy, jor, toNumber, hz]

theorem pointsContrib_buildVisit (pid n k : String) (r : Obj) :
    pointsContrib (buildVisitSubmission pid n k r)
      = some (if visitPointsAwarded r (parsePayload r) ≠ 0
          then visitPointsAwarded r (parsePayload r)
          else visitEstimatedPoints r (parsePayload r)) :=
  pointsContrib_of_gets (bv_get_pointsAwarded pid n k r) (bv_get_estimatedPoints pid n k r)

theorem pointsContrib_buildLegacy (pid n : String) (r : Obj) :
    pointsContrib (buildLegacyEmailSubmission pid n r)
      = some (if numOr0 (jor (fget r "pointsAwarded")
              (jor (pget (parsePayload r) "pointsAwarded") (.num 0))) ≠ 0
          then numOr0 (jor (fget r "pointsAwarded")
              (jor (pget (parsePayload r) "pointsAwarded") (.num 0)))
          else numOr0 (jor (pget (parsePayload r) "estimatedPoints")
              (jor (fget r "estimatedPoints") (.num 0)))) :=
  pointsContrib_of_gets (ble_get_pointsAwarded pid n r) (ble_get_estimatedPoints pid n r)

theorem qrKeyOf_buildVisit (pid n k : String) (r : Obj) :
    qrKeyOf (buildVisitSubmission pid n k r) = k := by
  unfold qrKeyOf
  rw [bv_get_qrKey]

theorem filterMap_tag_count (pool : List String) (f : String → Option Obj)
    (tag : Obj → String) (htag : ∀ k s, f k = some s → tag s = k) :
    ∀ (k : String), pool.Nodup → k ∈ pool → (f k).isSome →
      ((pool.filterMap f).filter (fun s => tag s = k)).length = 1 := by
  induction pool with
  | nil => intro k _ hk; exact absurd hk (List.not_mem_nil _)
  | cons p rest ih =>
      intro k hN hk hsome
      have hN' := List.nodup_cons.mp hN
      rcases List.mem_cons.mp hk with rfl | hkr
      · obtain ⟨s, hs⟩ := Option.isSome_iff_exists.mp hsome
        rw [List.filterMap_cons, hs]
        have hts : tag s = k := htag k s hs
        rw [List.filter_cons]
        simp only [hts, decide_eq_true_eq, if_pos]
        have hzero : ((rest.filterMap f).filter (fun s => tag s = k)).length = 0 := by
          rw [List.length_eq_zero]
          rw [List.filter_eq_nil_iff]
          intro a ha
          obtain ⟨k', hk', hfk'⟩ := List.mem_filterMap.mp ha
          have : tag a = k' := htag k' a hfk'
          simp only [this]
          intro hcon
          rw [decide_eq_true_eq] at hcon
          exact hN'.1 (hcon ▸ hk')
        simp [hzero]
      · have hkp : k ≠ p := fun he => hN'.1 (he ▸ hkr)
        rw [List.filterMap_cons]
        cases hf : f p with
        | none => exact ih k hN'.2 hkr hsome
        | some s =>
            have hts : tag s = p := htag p s hf
            rw [List.filter_cons]
            have : ¬(tag s = k) := by rw [hts]; exact fun he => hkp he.symm
            rw [if_neg (by simpa using this)]
            exact ih k hN'.2 hkr hsome

theorem char_toNat_ofNat_valid {n : Nat} (h : n.isValidChar) : (Char.ofNat n).toNat = n := by
  rw [Char.ofNat, dif_pos h]; rfl

theorem char_eq_iff_toNat {c d : Char} : c = d ↔ c.toNat = d.toNat :=
  ⟨fun h => h ▸ rfl, fun h => Char.ext (UInt32.ext h)⟩

theorem isJsWs_eq_toNat (c : Char) :
    isJsWs c = decide (c.toNat = 32 ∨ c.toNat = 9 ∨ c.toNat = 10 ∨ c.toNat = 13) := by
  unfold isJsWs
  have h32 : (c = ' ') = (c.toNat = 32) := propext char_eq_iff_toNat
  have h9 : (c = '\t') = (c.toNat = 9) := propext char_eq_iff_toNat
  have h10 : (c = '\n') = (c.toNat = 10) := propext char_eq_iff_toNat
  have h13 : (c = '\r') = (c.toNat = 13) := propext char_eq_iff_toNat
  simp only [h32, h9, h10, h13]
  by_cases h1 : c.toNat = 32 <;> by_cases h2 : c.toNat = 9 <;>
    by_cases h3 : c.toNat = 10 <;> by_cases h4 : c.toNat = 13 <;>
    simp [h1, h2, h3, h4]

theorem isJsWs_toLower (c : Char) : isJsWs (Char.toLower c) = isJsWs c := by
  unfold Char.toLower
  by_cases h : c.toNat ≥ 65 ∧ c.toNat ≤ 90
  · rw [if_pos h]
    have hv : (c.toNat + 32).isValidChar := Or.inl (by omega)
    rw [isJsWs_eq_toNat, isJsWs_eq_toNat, char_toNat_ofNat_valid hv]
    exact decide_eq_decide.mpr (by omega)
  · rw [if_neg h]

theorem char_toLower_toLower (c : Char) : Char.toLower (Char.toLower c) = Char.toLower c := by
  unfold Char.toLower
  by_cases h : c.toNat ≥ 65 ∧ c.toNat ≤ 90
  · rw [if_pos h]
    have hv : (c.toNat + 32).isValidChar := Or.inl (by omega)
    rw [if_neg (by rw [char_toNat_ofNat_valid hv]; omega)]
  · rw [if_neg h, if_neg h]

theorem jsLower_idem (s : String) : jsLower (jsLower s) = jsLower s := by
  unfold jsLower
  simp only [List.map_map]
  congr 1
  exact List.map_congr_left (fun c _ => char_toLower_toLower c)

theorem dropWhile_isJsWs_map_toLower (l : List Char) :
    (l.map Char.toLower).dropWhile isJsWs = (l.dropWhile isJsWs).map Char.toLower := by
  induction l with
  | nil => rfl
  | cons c rest ih =>
      simp only [List.map_cons, List.dropWhile_cons, isJsWs_toLower]
      by_cases h : isJsWs c
      · simp only [h, if_true, ih]
      · simp only [h, Bool.false_eq_true, if_false, List.map_cons]

theorem jsTrim_jsLower (s : String) : jsTrim (jsLower s) = jsLower (jsTrim s) := by
  unfold jsTrim jsLower
  congr 1
  show ((((s.data.map Char.toLower).dropWhile isJsWs).reverse.dropWhile isJsWs).reverse)
      = ((((s.data.dropWhile isJsWs).reverse.dropWhile isJsWs).reverse).map Char.toLower)
  rw [dropWhile_isJsWs_map_toLower]
  rw [← List.map_reverse]
  rw [dropWhile_isJsWs_map_toLower]
  rw [List.map_reverse]

theorem dropWhile_head_not {p : Char → Bool} (l : List Char) {c : Char} {rest : List Char}
    (h : l.dropWhile p = c :: rest) : p c = false := by
  induction l with
  | nil => exact absurd h (by simp)
  | cons a as ih =>
      rw [List.dropWhile_cons] at h
      by_cases ha : p a
      · rw [if_pos ha] at h; exact ih h
      · rw [if_neg ha] at h
        cases h
        simpa using ha

theorem dropWhile_eq_self_of_head {p : Char → Bool} (l : List Char)
    (h : ∀ c rest, l = c :: rest → p c = false) : l.dropWhile p = l := by
  cases l with
  | nil => rfl
  | cons c rest =>
      rw [List.dropWhile_cons, if_neg (by simp [h c rest rfl])]

theorem jsTrim_idem (s : String) : jsTrim (jsTrim s) = jsTrim s := by
  unfold jsTrim
  congr 1
  set l1 := s.data.dropWhile isJsWs with hl1
  set l2 := l1.reverse.dropWhile isJsWs with hl2
  show ((l2.reverse.dropWhile isJsWs).reverse.dropWhile isJsWs).reverse = l2.reverse
  have h2 : l2.reverse.dropWhile isJsWs = l2.reverse := by
    apply dropWhile_eq_self_of_head
    intro c rest hc
    have hlast : l2 ≠ [] := by
      intro hnil; rw [hnil] at hc; exact absurd hc (by simp)
    obtain ⟨c2, rest2, hc2⟩ := List.exists_cons_of_ne_nil hlast
    have hl1ne : l1 ≠ [] := by
      intro hnil
      rw [hnil] at hl2
      simp at hl2
      rw [hl2] at hc2
      exact absurd hc2 (by simp)
    obtain ⟨c1, rest1, hc1⟩ := List.exists_cons_of_ne_nil hl1ne
    have hc1ws : isJsWs c1 = false := dropWhile_head_not s.data hc1
    have hsuffix : l2.IsSuffix l1.reverse := List.dropWhile_suffix isJsWs
    have : l2.getLast? = l1.reverse.getLast? := by
      rcases hsuffix with ⟨pre, hpre⟩
      rw [← hpre, List.getLast?_append]
      have hsome : l2.getLast?.isSome := by rw [hc2]; simp
      obtain ⟨a, ha⟩ := Option.isSome_iff_exists.mp hsome
      rw [ha]
      rfl
    have hrevlast : l1.reverse.getLast? = some c1 := by
      rw [List.getLast?_reverse, hc1]
      rfl
    have hheadlast : c = c1 := by
      have hhead : l2.reverse.head? = some c := by rw [hc]; rfl
      rw [List.head?_reverse] at hhead
      rw [this, hrevlast] at hhead
      exact (Option.some_inj.mp hhead).symm
    rw [hheadlast]
    exact hc1ws
  rw [h2]
  have h3 : l2.reverse.reverse.dropWhile isJsWs = l2 := by
    rw [List.reverse_reverse]
    apply dropWhile_eq_self_of_head
    intro c rest hc
    exact dropWhile_head_not l1.reverse hc
  rw [h3]

theorem jsTrim_normalize (s : String) :
    jsTrim (normalizePartnerId s) = normalizePartnerId s := by
  unfold normalizePartnerId
  rw [jsTrim_jsLower, jsTrim_idem]

theorem mem_visitSetKeys_norm (id : String) (h : normalizePartnerId id ≠ "") :
    ("partner:visits:" ++ normalizePartnerId id)
      ∈ visitSetKeys id (normalizePartnerId id) := by
  have htrim : jsTrim (normalizePartnerId id) = normalizePartnerId id := jsTrim_normalize id
  have h1 : ("partner:visits:" ++ normalizePartnerId id)
      ∈ addVisitKeyVariant (addVisitKeyVariant [] id) (normalizePartnerId id) := by
    unfold addVisitKeyVariant
    rw [if_neg h]
    show _ ∈ (if jsTrim (normalizePartnerId id) = "" then addVisitKeyVariant [] id
              else addUnique (addVisitKeyVariant [] id)
                ("partner:visits:" ++ jsTrim (normalizePartnerId id)))
    rw [htrim, if_neg h]
    exact mem_addUnique_self
  have hid : id ≠ "" := by
    intro he
    apply h
    rw [he]
    rfl
  unfold visitSetKeys
  dsimp only
  rw [if_pos hid, if_pos h]
  exact addVisitKeyVariant_mono (addVisitKeyVariant_mono (addVisitKeyVariant_mono h1))

theorem innerFold_id_of_empty (store : KVStore) (A : String)
    (h0 : ∀ k, k ≠ A → store.sets k = []) :
    ∀ (ks : List String) (acc : List String), (∀ k ∈ ks, k ≠ A) →
      ks.foldl (fun acc k =>
        (store.sets k).foldl
          (fun acc m => if m ≠ "" ∧ startsWithQr m then addUnique acc m else acc) acc) acc
        = acc := by
  intro ks
  induction ks with
  | nil => intro acc _; rfl
  | cons k rest ih =>
      intro acc hne
      simp only [List.foldl_cons]
      rw [h0 k (hne k (List.mem_cons_self _ _)), List.foldl_nil]
      exact ih acc (fun k' hk' => hne k' (List.mem_cons_of_mem _ hk'))

theorem visitRecordKeys_only_key (store : KVStore) (A : String) (keys : List String)
    (h0 : ∀ k, k ≠ A → store.sets k = []) (hN : keys.Nodup) :
    visitRecordKeys store keys
      = if A ∈ keys then
          (store.sets A).foldl
            (fun acc m => if m ≠ "" ∧ startsWithQr m then addUnique acc m else acc) []
        else [] := by
  unfold visitRecordKeys
  induction keys with
  | nil => simp
  | cons k rest ih =>
      have hN' := List.nodup_cons.mp hN
      simp only [List.foldl_cons]
      by_cases hk : k = A
      · subst hk
        rw [if_pos (List.mem_cons_self _ _)]
        exact innerFold_id_of_empty store k h0 rest _
          (fun k' hk' he => hN'.1 (he ▸ hk'))
      · rw [h0 k hk, List.foldl_nil, ih hN'.2]
        by_cases hA : A ∈ rest
        · rw [if_pos hA, if_pos (List.mem_cons_of_mem _ hA)]
        · rw [if_neg hA, if_neg (by
            intro hmem
            rcases List.mem_cons.mp hmem with he | he
            · exact hk he.symm
            · exact hA he)]

theorem canonicalPartnerIdOf_pid_irrelevant (r : Obj) (pk n pid1 pid2 : String) (h : n ≠ "") :
    canonicalPartnerIdOf r pk n pid1 = canonicalPartnerIdOf r pk n pid2 := by
  unfold canonicalPartnerIdOf
  dsimp only
  set c0 := normalizePartnerIdVal (fget r "partnerId") with hc0
  set c1 := if c0 ≠ "" then c0 else normalizePartnerId pk with hc1
  have hc2 : (if c1 ≠ "" then c1 else n) ≠ "" := by
    split_ifs with hc
    · exact hc
    · exact h
  simp only [if_pos hc2]

theorem buildVisitSubmission_pid_irrelevant (pid1 pid2 n k : String) (r : Obj) (h : n ≠ "") :
    buildVisitSubmission pid1 n k r = buildVisitSubmission pid2 n k r := by
  unfold buildVisitSubmission
  simp only [canonicalPartnerIdOf_pid_irrelevant _ _ _ pid1 pid2 h]

theorem visitSubmissionsOf_congr (store : KVStore) (pid1 pid2 n : String) (h : n ≠ "")
    (hpool : visitRecordKeys store (visitSetKeys pid1 n)
      = visitRecordKeys store (visitSetKeys pid2 n)) :
    visitSubmissionsOf store pid1 n = visitSubmissionsOf store pid2 n := by
  unfold visitSubmissionsOf
  rw [hpool]
  have hf : (fun visitKey =>
      let record := resolveRecord store visitKey
      if record.isEmpty then none
      else some (buildVisitSubmission pid1 n visitKey record))
    = (fun visitKey =>
      let record := resolveRecord store visitKey
      if record.isEmpty then none
      else some (buildVisitSubmission pid2 n visitKey record)) := by
    funext visitKey
    dsimp only
    by_cases he : (resolveRecord store visitKey).isEmpty
    · rw [if_pos he, if_pos he]
    · rw [if_neg he, if_neg he,
        buildVisitSubmission_pid_irrelevant pid1 pid2 n visitKey _ h]
  rw [hf]

theorem jsonParse_empty : jsonParse "" = none := rfl

theorem parsePayload_data_branch {record : Obj} {ps : String}
    {fields : List (String × JsonVal)} {ds : String}
    (hp : Obj.get record "payload" = some (.str ps))
    (hparse : jsonParse ps = some (.obj fields))
    (hdata : Obj.get fields "data" = some (.str ds))
    (hds : ds ≠ "") :
    parsePayload record
      = (match jsonParse ds with
         | some nested => .obj (spreadInto (spreadInto [] (.obj fields)) nested)
         | none => .obj fields) := by
  have hps : ps ≠ "" := by
    intro he
    rw [he, jsonParse_empty] at hparse
    exact Option.noConfusion hparse
  unfold parsePayload
  rw [hp]
  dsimp only
  rw [if_pos (show truthy (.str ps) = true by simp [truthy, hps])]
  simp only [hparse]
  show (match jget (.obj fields) "data" with
        | some (.str ds') =>
            if ds' ≠ "" then
              (match jsonParse ds' with
               | some nested => JsonVal.obj (spreadInto (spreadInto [] (.obj fields)) nested)
               | none => JsonVal.obj fields)
            else JsonVal.obj fields
        | _ => JsonVal.obj fields) = _
  rw [show jget (.obj fields) "data" = some (.str ds) from hdata]
  simp only [if_pos hds]

theorem loadPartnerData_all_sets_empty (store : KVStore) (pid : String)
    (h : ∀ k, store.sets k = []) :
    loadPartnerData store pid
      = { partnerId := pid, submissions := [], metrics := EMPTY_METRICS,
          partnerLabel := .null } := by
  unfold loadPartnerData
  by_cases h0 : normalizePartnerId pid = "" ∧ pid = ""
  · rw [if_pos h0]
  · rw [if_neg h0]
    have hpool : visitSubmissionsOf store pid (normalizePartnerId pid) = [] := by
      unfold visitSubmissionsOf
      rw [visitRecordKeys_of_empty_sets store _ h]
      rfl
    rw [hpool]
    dsimp only
    rw [if_pos (legacyEmails_of_empty_sets store _ h)]

theorem loadPartnerDataLegacy_all_sets_empty (store : KVStore) (pid : String)
    (h : ∀ k, store.sets k = []) :
    loadPartnerDataLegacy store pid
      = { partnerId := pid, submissions := [], metrics := EMPTY_METRICS,
          partnerLabel := .null } := by
  unfold loadPartnerDataLegacy
  by_cases h0 : normalizePartnerId pid = "" ∧ pid = ""
  · rw [if_pos h0]
  · rw [if_neg h0]
    dsimp only
    rw [if_pos (legacyEmails_of_empty_sets store _ h)]

theorem loadPartnerData_result_cases (store : KVStore) (pid : String) :
    ((loadPartnerData store pid).submissions = []
      ∧ (loadPartnerData store pid).metrics = EMPTY_METRICS)
    ∨ ∃ subs, (loadPartnerData store pid).submissions = jsSort subs
        ∧ (loadPartnerData store pid).metrics
            = aggregateMetrics pointsContrib isBonusSub (jsSort subs)
        ∧ (subs = visitSubmissionsOf store pid (normalizePartnerId pid)
           ∨ subs = legacyEmailSubmissionsOf store pid (normalizePartnerId pid)
              (legacyEmails store (legacyKeys pid (normalizePartnerId pid)))) := by
  unfold loadPartnerData
  by_cases h0 : normalizePartnerId pid = "" ∧ pid = ""
  · rw [if_pos h0]; exact Or.inl ⟨rfl, rfl⟩
  · rw [if_neg h0]
    cases hv : visitSubmissionsOf store pid (normalizePartnerId pid) with
    | nil =>
        dsimp only
        by_cases he : legacyEmails store (legacyKeys pid (normalizePartnerId pid)) = []
        · rw [if_pos he]; exact Or.inl ⟨rfl, rfl⟩
        · rw [if_neg he]
          exact Or.inr ⟨_, rfl, rfl, Or.inr rfl⟩
    | cons a l =>
        exact Or.inr ⟨a :: l, rfl, rfl, Or.inl rfl⟩

theorem loadPartnerDataLegacy_result_cases (store : KVStore) (pid : String) :
    ((loadPartnerDataLegacy store pid).submissions = []
      ∧ (loadPartnerDataLegacy store pid).metrics = EMPTY_METRICS)
    ∨ ∃ subs, (loadPartnerDataLegacy store pid).submissions = jsSort subs
        ∧ (loadPartnerDataLegacy store pid).metrics
            = aggregateMetrics legacyPointsContrib isBonusStrict (jsSort subs) := by
  unfold loadPartnerDataLegacy
  by_cases h0 : normalizePartnerId pid = "" ∧ pid = ""
  · rw [if_pos h0]; exact Or.inl ⟨rfl, rfl⟩
  · rw [if_neg h0]
    dsimp only
    by_cases he : legacyEmails store (legacyKeys pid (normalizePartnerId pid)) = []
    · rw [if_pos he]; exact Or.inl ⟨rfl, rfl⟩
    · rw [if_neg he]
      exact Or.inr ⟨_, rfl, rfl⟩

/-- C6 (counterexample): the claim says bonusRedemptions counts only the
exact case-sensitive literal BonusReward and that a visit differing only
in case is not counted; but on store6, whose single visit carries ticket
BONUSREWARD, the current loadPartnerData reports bonusRedemptions = 1,
because it lower-cases the ticket before comparing. -/
theorem C6_counterexample :
    ((loadPartnerData store6 "p").submissions.map (fun s => Obj.get s "ticket"))
      = [some (.str "BONUSREWARD")]
    ∧ (loadPartnerData store6 "p").metrics.bonusRedemptions = 1 := ⟨rfl, rfl⟩

/-- C6 (amended): in the current implementation metrics.bonusRedemptions
counts the visits whose ticket (or, as fallback, ticketType) field
stringifies, lower-cased, to the bonusreward literal - a case-insensitive
count; the legacy implementation counts the visits whose ticket field is
strictly equal to the case-sensitive BonusReward literal. -/
theorem C6_bonus_counting (store : KVStore) (pid : String) :
    (loadPartnerData store pid).metrics.bonusRedemptions
      = ((loadPartnerData store pid).submissions.countP isBonusSub : Int)
    ∧ (loadPartnerDataLegacy store pid).metrics.bonusRedemptions
      = ((loadPartnerDataLegacy store pid).submissions.countP isBonusStrict : Int) := by
  constructor
  · rcases loadPartnerData_result_cases store pid with ⟨hs, hm⟩ | ⟨subs, hs, hm, _⟩
    · rw [hs, hm]; rfl
    · rw [hs, hm, aggregateMetrics_bonus]
  · rcases loadPartnerDataLegacy_result_cases store pid with ⟨hs, hm⟩ | ⟨subs, hs, hm⟩
    · rw [hs, hm]; rfl
    · rw [hs, hm, aggregateMetrics_bonus]

/-- C7: metrics.averageRevenue and metrics.averagePoints equal the
revenue and points divided by the visit count and rounded (floor of the
quotient plus one half, Math.round), whenever the count is nonzero, and
both are 0 when the count is 0; the computation is total, so no
division-by-zero error can arise. -/
theorem C7_averages (store : KVStore) (pid : String) :
    ((loadPartnerData store pid).metrics.count = 0 →
      (loadPartnerData store pid).metrics.averageRevenue = some 0
      ∧ (loadPartnerData store pid).metrics.averagePoints = some 0)
    ∧ ((loadPartnerData store pid).metrics.count ≠ 0 →
      (loadPartnerData store pid).metrics.averageRevenue
        = (loadPartnerData store pid).metrics.revenue.map
            (fun r => jsRound r (loadPartnerData store pid).metrics.count)
      ∧ (loadPartnerData store pid).metrics.averagePoints
        = (loadPartnerData store pid).metrics.points.map
            (fun p => jsRound p (loadPartnerData store pid).metrics.count)) := by
  rcases loadPartnerData_result_cases store pid with ⟨hs, hm⟩ | ⟨subs, hs, hm, _⟩
  · rw [hm]
    exact ⟨fun _ => ⟨rfl, rfl⟩, fun hc => absurd rfl hc⟩
  · rw [hm]
    have havg := aggregateMetrics_avg pointsContrib isBonusSub (jsSort subs)
    constructor
    · intro hc
      rw [havg.1, havg.2, if_neg (fun hne => hne hc), if_neg (fun hne => hne hc)]
      exact ⟨rfl, rfl⟩
    · intro hc
      rw [havg.1, havg.2, if_pos hc, if_pos hc]
      exact ⟨rfl, rfl⟩

/-- C7 (witness): on the three-visit scenario store with revenue 300 and
points 35 over 3 visits, the averages equal the rounded quotients, and
they evaluate to 100 and 12. -/
theorem C7_averages_witness :
    ((loadPartnerData storeAvg "p").metrics.averageRevenue
        = (loadPartnerData storeAvg "p").metrics.revenue.map
            (fun r => jsRound r (loadPartnerData storeAvg "p").metrics.count)
      ∧ (loadPartnerData storeAvg "p").metrics.averagePoints
        = (loadPartnerData storeAvg "p").metrics.points.map
            (fun p => jsRound p (loadPartnerData storeAvg "p").metrics.count))
    ∧ (loadPartnerData storeAvg "p").metrics.averageRevenue = some 100
    ∧ (loadPartnerData storeAvg "p").metrics.averagePoints = some 12 :=
  ⟨(C7_averages storeAvg "p").2 (by decide), rfl, rfl⟩

/-- C8 (counterexample): the claim says every unresolvable identifier
yields an empty ledger on every store; but the whitespace identifier,
which normalizes to the empty string, still probes the legacy key built
from the raw identifier, and on store8 that key holds data, so the
returned ledger is nonempty. -/
theorem C8_counterexample :
    normalizePartnerId "   " = ""
    ∧ (loadPartnerData store8 "   ").submissions.length = 1 := ⟨rfl, rfl⟩

/-- C8 (amended): an empty partner identifier always yields the empty
result (empty submissions, the all-zero EMPTY_METRICS, null
partnerLabel), and so does any identifier over a store none of whose
sets hold members; but a whitespace-only identifier can still reach data
through the legacy partner key built from the raw identifier. -/
theorem C8_empty_result (store : KVStore) (pid : String)
    (h : pid = "" ∨ ∀ k, store.sets k = []) :
    loadPartnerData store pid
      = { partnerId := pid, submissions := [], metrics := EMPTY_METRICS,
          partnerLabel := .null } := by
  rcases h with rfl | h
  · unfold loadPartnerData
    rw [if_pos ⟨rfl, rfl⟩]
  · exact loadPartnerData_all_sets_empty store pid h

/-- C8 (witness): a partner identifier with no matching keys anywhere
returns the empty result. -/
theorem C8_empty_result_witness :
    loadPartnerData emptyStore "nosuchpartner"
      = { partnerId := "nosuchpartner", submissions := [], metrics := EMPTY_METRICS,
          partnerLabel := .null } :=
  C8_empty_result emptyStore "nosuchpartner" (Or.inr (fun _ => rfl))

/-- C9 (counterexample): the two implementations do not return equal
results on every store: on store9 (one legacy record with
estimatedPoints 10 and pointsAwarded 50) the current implementation
reports points 50 (pointsAwarded wins) while the legacy implementation
reports points 10 (it ignores pointsAwarded entirely). -/
theorem C9_counterexample :
    (loadPartnerData store9 "p").metrics.points = some 50
    ∧ (loadPartnerDataLegacy store9 "p").metrics.points = some 10
    ∧ (some (50 : Int) ≠ some (10 : Int)) := ⟨rfl, rfl, by decide⟩

/-- C9 (amended): the two implementations agree whenever no set in the
store holds members - both then return the same empty result; in
general they diverge (see the counterexample). -/
theorem C9_agree_on_empty (store : KVStore) (pid : String)
    (h : ∀ k, store.sets k = []) :
    loadPartnerData store pid = loadPartnerDataLegacy store pid := by
  rw [loadPartnerData_all_sets_empty store pid h,
    loadPartnerDataLegacy_all_sets_empty store pid h]

/-- C9 (witness): the two implementations agree on the store with no
data. -/
theorem C9_agree_on_empty_witness :
    loadPartnerData emptyStore "p" = loadPartnerDataLegacy emptyStore "p" :=
  C9_agree_on_empty emptyStore "p" (fun _ => rfl)

/-- C2: a visit's effective contribution to metrics.points is
pointsAwarded when it is nonzero and estimatedPoints otherwise, for every
combination of present, absent and zero values of the two fields:
metrics.points is the NaN-propagating sum of the per-submission
contribution pointsContrib, and on every submission either branch builds
(from an arbitrary record, hence any combination of present, absent and
zero fields) that contribution equals the derived pointsAwarded when
nonzero, else the derived estimatedPoints. -/
theorem C2_effective_points :
    (∀ (store : KVStore) (pid : String),
      (loadPartnerData store pid).metrics.points
        = ((loadPartnerData store pid).submissions.map pointsContrib).foldl addJs (some 0))
    ∧ (∀ (pid n k : String) (r : Obj),
        pointsContrib (buildVisitSubmission pid n k r)
          = some (if visitPointsAwarded r (parsePayload r) ≠ 0
              then visitPointsAwarded r (parsePayload r)
              else visitEstimatedPoints r (parsePayload r)))
    ∧ (∀ (pid n : String) (r : Obj),
        pointsContrib (buildLegacyEmailSubmission pid n r)
          = some (if numOr0 (jor (fget r "pointsAwarded")
                  (jor (pget (parsePayload r) "pointsAwarded") (.num 0))) ≠ 0
              then numOr0 (jor (fget r "pointsAwarded")
                  (jor (pget (parsePayload r) "pointsAwarded") (.num 0)))
              else numOr0 (jor (pget (parsePayload r) "estimatedPoints")
                  (jor (fget r "estimatedPoints") (.num 0))))) := by
  refine ⟨fun store pid => ?_, pointsContrib_buildVisit, pointsContrib_buildLegacy⟩
  rcases loadPartnerData_result_cases store pid with ⟨hs, hm⟩ | ⟨subs, hs, hm, _⟩
  · rw [hs, hm]; rfl
  · rw [hs, hm, aggregateMetrics_points]

/-- C10: every Visit emitted by loadPartnerData whose pointsAwarded is
nonzero carries that same value in its estimatedPoints field: the
emitted estimatedPoints is pointsAwarded-if-nonzero, else the
registration-time estimate, in both the visit-set and the legacy branch. -/
theorem C10_estimated_points_override (store : KVStore) (pid : String) (s : Obj)
    (hs : s ∈ (loadPartnerData store pid).submissions) (pa : Int)
    (hpa : Obj.get s "pointsAwarded" = some (.num pa)) (hne : pa ≠ 0) :
    Obj.get s "estimatedPoints" = some (.num pa) := by
  rcases loadPartnerData_submissions_cases store pid with h0 | h0 | h0 <;> rw [h0] at hs
  · exact absurd hs (List.not_mem_nil s)
  · have hs' := (jsSort_perm _).mem_iff.mp hs
    obtain ⟨k, _, _, rfl⟩ := mem_visitSubmissionsOf hs'
    rw [bv_get_pointsAwarded] at hpa
    have hpa' : visitPointsAwarded (resolveRecord store k)
        (parsePayload (resolveRecord store k)) = pa := by
      have := Option.some_inj.mp hpa
      injection this
    rw [bv_get_estimatedPoints, hpa', if_pos hne]
  · have hs' := (jsSort_perm _).mem_iff.mp hs
    obtain ⟨e, _, _, rfl⟩ := mem_legacyEmailSubmissionsOf hs'
    rw [ble_get_pointsAwarded] at hpa
    have hpa' : numOr0 (jor (fget (store.hashes ("qr:email:" ++ e)) "pointsAwarded")
        (jor (pget (parsePayload (store.hashes ("qr:email:" ++ e))) "pointsAwarded")
          (.num 0))) = pa := by
      have := Option.some_inj.mp hpa
      injection this
    rw [ble_get_estimatedPoints, hpa', if_pos hne]

/-- C10 (witness): on store9 the single emitted visit has pointsAwarded
50 and its estimatedPoints field equals 50, not the stored estimate 10. -/
theorem C10_estimated_points_override_witness :
    Obj.get ((loadPartnerData store9 "p").submissions.headD []) "estimatedPoints"
      = some (.num 50) := by
  have hsubs : (loadPartnerData store9 "p").submissions
      = (loadPartnerData store9 "p").submissions.headD [] :: [] := rfl
  exact C10_estimated_points_override store9 "p" _
    (by rw [hsubs]; exact List.mem_cons_self _ _) 50 rfl (by decide)

/-- C3 (counterexample): the claim says that on a key present both in
the outer map and in the nested data object the outer value wins; but
on rec3, whose outer payload has ticket A while the nested data string
has ticket B, parsePayload returns ticket B - the spread order of the
source makes the nested keys win. -/
theorem C3_counterexample :
    jsonParse "\x7b\"ticket\":\"A\",\"data\":\"\x7b\\\"ticket\\\":\\\"B\\\"\x7d\"\x7d"
      = some (.obj [("ticket", .str "A"), ("data", .str "\x7b\"ticket\":\"B\"\x7d")])
    ∧ jget (parsePayload rec3) "ticket" = some (.str "B") := ⟨rfl, rfl⟩

/-- C3 (amended): when the decoded payload map has a nonempty string
data field, parsePayload performs a second JSON parse of that string
and shallow-merges the nested keys into the outer map with the NESTED
value winning on a key present in both (nested-first lookup, falling
back to the outer map); when the nested parse fails, the outer map is
returned unchanged.  The double-encoded scenario still decodes to a
payload with ticket VIP and totalPrice 500, since there no key occurs
on both sides. -/
theorem C3_nested_merge (record : Obj) (ps : String)
    (fields : List (String × JsonVal)) (ds : String)
    (hp : Obj.get record "payload" = some (.str ps))
    (hparse : jsonParse ps = some (.obj fields))
    (hdata : Obj.get fields "data" = some (.str ds))
    (hds : ds ≠ "") :
    (jsonParse ds = none → parsePayload record = .obj fields)
    ∧ (∀ nf, jsonParse ds = some (.obj nf) → ObjWF fields → ObjWF nf →
        ∀ k, jget (parsePayload record) k = (Obj.get nf k <|> Obj.get fields k)) := by
  have hb := parsePayload_data_branch hp hparse hdata hds
  constructor
  · intro hn
    rw [hb, hn]
  · intro nf hn hwf hwfn k
    rw [hb, hn]
    show Obj.get (spreadInto (spreadInto [] (.obj fields)) (.obj nf)) k = _
    exact get_merged fields nf k hwf hwfn

/-- C3 (witness): on the double-encoded scenario record rec3b the
theorem applies, and the decoded payload carries ticket VIP and
totalPrice 500. -/
theorem C3_nested_merge_witness :
    (jget (parsePayload rec3b) "ticket"
        = (Obj.get [("ticket", JsonVal.str "VIP"), ("totalPrice", JsonVal.num 500)] "ticket"
            <|> Obj.get [("data",
              JsonVal.str "\x7b\"ticket\":\"VIP\",\"totalPrice\":500\x7d")] "ticket"))
    ∧ jget (parsePayload rec3b) "ticket" = some (.str "VIP")
    ∧ jget (parsePayload rec3b) "totalPrice" = some (.num 500) :=
  ⟨(C3_nested_merge rec3b
      "\x7b\"data\":\"\x7b\\\"ticket\\\":\\\"VIP\\\",\\\"totalPrice\\\":500\x7d\"\x7d"
      [("data", .str "\x7b\"ticket\":\"VIP\",\"totalPrice\":500\x7d")]
      "\x7b\"ticket\":\"VIP\",\"totalPrice\":500\x7d"
      rfl rfl rfl (by decide)).2
      [("ticket", .str "VIP"), ("totalPrice", .num 500)]
      rfl (by decide) (by decide) "ticket",
   rfl, rfl⟩

/-- C4 (counterexample): the claim says a visit with unparseable
createdAt sorts as if timestamped at epoch 0, i.e. last; but on store4
the visit with createdAt not-a-date comes FIRST in the returned ledger,
ahead of two parseable dates in descending order: its NaN time value
makes the comparator return 0 against every other visit (a tie), so the
stable sort leaves it where it stood, not at the end. -/
theorem C4_counterexample :
    ((loadPartnerData store4 "p").submissions.map (fun s => fget s "createdAt"))
      = [.str "not-a-date", .str "1970-01-03", .str "1970-01-02"]
    ∧ parseDateStr "not-a-date" = none
    ∧ parseDateStr "1970-01-03" = some 172800000
    ∧ parseDateStr "1970-01-02" = some 86400000 := ⟨rfl, rfl, rfl, rfl⟩

/-- C4 (amended): the returned submissions are the stable mergesort of
the collected ledger under the comparator time(b) - time(a), where a
missing or falsy createdAt is taken at epoch 0 and an unparseable one
yields NaN, which compares as a tie; consequently, whenever every
returned visit has a non-NaN time value (parseable, missing or falsy
createdAt), the ledger is sorted by that time value descending, with
missing timestamps at epoch 0. -/
theorem C4_sorted_when_parseable (store : KVStore) (pid : String)
    (h : ∀ s ∈ (loadPartnerData store pid).submissions, (subTime s).isSome) :
    (loadPartnerData store pid).submissions.Pairwise
      (fun a b => (subTime b).getD 0 ≤ (subTime a).getD 0) := by
  rcases loadPartnerData_submissions_cases store pid with h0 | h0 | h0 <;> rw [h0] at h ⊢
  · exact List.Pairwise.nil
  · exact jsSort_pairwise_of_times _ (fun s hs => h s ((jsSort_perm _).mem_iff.mpr hs))
  · exact jsSort_pairwise_of_times _ (fun s hs => h s ((jsSort_perm _).mem_iff.mpr hs))

/-- C4 (witness): on a store of three visits with parseable ISO dates
the returned ledger is pairwise descending by time value. -/
theorem C4_sorted_when_parseable_witness :
    (loadPartnerData storeC4w "p").submissions.Pairwise
      (fun a b => (subTime b).getD 0 ≤ (subTime a).getD 0) :=
  C4_sorted_when_parseable storeC4w "p" (by decide)

theorem obj_isEmpty_false_of_ne_nil {o : Obj} (h : o ≠ []) : o.isEmpty = false := by
  cases o with
  | nil => exact absurd rfl h
  | cons p rest => rfl

theorem matchVisitKey_email_ne {s e p v : String} (h : matchVisitKey s = some (e, p, v)) :
    e ≠ "" := by
  unfold matchVisitKey at h
  split at h
  · split at h
    · rename_i e1 r2 heq1
      by_cases h1 : e1 = []
      · rw [if_pos h1] at h
        exact Option.noConfusion h
      · rw [if_neg h1] at h
        split at h
        · rename_i p1 r3 heq2
          by_cases h2 : p1 = []
          · rw [if_pos h2] at h
            exact Option.noConfusion h
          · rw [if_neg h2] at h
            by_cases h3 : r3 = []
            · rw [if_pos h3] at h
              exact Option.noConfusion h
            · rw [if_neg h3] at h
              injection h with h4
              have he : String.mk e1 = e := congrArg Prod.fst h4
              intro hcon
              apply h1
              have : (String.mk e1).data = ("" : String).data := by rw [he, hcon]
              simpa using this
        · exact Option.noConfusion h
    · exact Option.noConfusion h
  · exact Option.noConfusion h

theorem finishResult_submissions (pid : String) (l : List Obj) :
    (finishResult pid l).submissions = jsSort l := rfl

theorem resolveRecord_both (store : KVStore) {e p v k : String}
    (hk : matchVisitKey k = some (e, p, v))
    (hcur : store.hashes k ≠ [])
    (hleg : store.hashes ("qr:email:" ++ e) ≠ []) :
    resolveRecord store k
      = spreadInto (spreadInto [] (.obj (store.hashes ("qr:email:" ++ e))))
          (.obj (store.hashes k)) := by
  unfold resolveRecord
  rw [hk]
  dsimp only
  simp only [obj_isEmpty_false_of_ne_nil hcur, Bool.false_eq_true, if_false]
  rw [if_pos (matchVisitKey_email_ne hk)]
  simp only [obj_isEmpty_false_of_ne_nil hleg, Bool.false_eq_true, if_false]

/-- C1: for a member key of the form qr-email-partner-visitId reachable
from the partner's visit sets, when both the current visit record and
the legacy record qr-email exist, loadPartnerData emits exactly one
Visit for that key, built from the merged record in which every field
defined by the current record takes the current value and every field
defined only by the legacy record keeps the legacy value (the spread
order of the source); in particular (see the witness) the scenario with
legacy totalPrice 100 and current visited true merges into one Visit
with totalPrice 100 and visited true. -/
theorem C1_merge_precedence (store : KVStore) (pid e p v k : String)
    (hk : matchVisitKey k = some (e, p, v))
    (hmem : k ∈ visitRecordKeys store (visitSetKeys pid (normalizePartnerId pid)))
    (hcur : store.hashes k ≠ [])
    (hleg : store.hashes ("qr:email:" ++ e) ≠ [])
    (hwfc : ObjWF (store.hashes k))
    (hwfl : ObjWF (store.hashes ("qr:email:" ++ e))) :
    (∀ f, Obj.get (resolveRecord store k) f
        = (Obj.get (store.hashes k) f <|> Obj.get (store.hashes ("qr:email:" ++ e)) f))
    ∧ ((loadPartnerData store pid).submissions.filter
        (fun s => qrKeyOf s = k)).length = 1
    ∧ (∀ s, s ∈ (loadPartnerData store pid).submissions → qrKeyOf s = k →
        s = buildVisitSubmission pid (normalizePartnerId pid) k (resolveRecord store k)) := by
  have hres := resolveRecord_both store hk hcur hleg
  have hresne : resolveRecord store k ≠ [] := by
    rw [hres]; exact merged_ne_nil _ _ hcur
  have hfk : (fun visitKey =>
      let record := resolveRecord store visitKey
      if record.isEmpty then none
      else some (buildVisitSubmission pid (normalizePartnerId pid) visitKey record)) k
      = some (buildVisitSubmission pid (normalizePartnerId pid) k (resolveRecord store k)) := by
    dsimp only
    simp only [obj_isEmpty_false_of_ne_nil hresne, Bool.false_eq_true, if_false]
  have hmemsub : buildVisitSubmission pid (normalizePartnerId pid) k (resolveRecord store k)
      ∈ visitSubmissionsOf store pid (normalizePartnerId pid) :=
    List.mem_filterMap.mpr ⟨k, hmem, hfk⟩
  have hvsne : visitSubmissionsOf store pid (normalizePartnerId pid) ≠ [] :=
    List.ne_nil_of_mem hmemsub
  have hlpd := loadPartnerData_of_visitSubs_ne store pid hvsne
  have htag : ∀ k' s, (fun visitKey =>
      let record := resolveRecord store visitKey
      if record.isEmpty then none
      else some (buildVisitSubmission pid (normalizePartnerId pid) visitKey record)) k'
        = some s → qrKeyOf s = k' := by
    intro k' s hf
    dsimp only at hf
    by_cases he : (resolveRecord store k').isEmpty
    · rw [if_pos he] at hf
      exact absurd hf (by simp)
    · rw [if_neg he] at hf
      rw [← Option.some_inj.mp hf]
      exact qrKeyOf_buildVisit pid (normalizePartnerId pid) k' (resolveRecord store k')
  refine ⟨fun f => by rw [hres]; exact get_merged _ _ f hwfl hwfc, ?_, ?_⟩
  · rw [hlpd, finishResult_submissions]
    have hperm := (jsSort_perm (visitSubmissionsOf store pid (normalizePartnerId pid))).filter
      (fun s => qrKeyOf s = k)
    rw [hperm.length_eq]
    exact filterMap_tag_count _ _ qrKeyOf htag k
      (visitRecordKeys_nodup store (visitSetKeys pid (normalizePartnerId pid))) hmem
      (Option.isSome_iff_exists.mpr ⟨_, hfk⟩)
  · intro s hs hq
    rw [hlpd, finishResult_submissions] at hs
    have hs' := (jsSort_perm _).mem_iff.mp hs
    obtain ⟨k', hk', hne', rfl⟩ := mem_visitSubmissionsOf hs'
    have hkk : k' = k := by
      rw [← qrKeyOf_buildVisit pid (normalizePartnerId pid) k' (resolveRecord store k')]
      exact hq
    subst hkk
    rfl

/-- C1 (witness): on store1, the scenario of the spec - member key
qr-a@x.com-P1-v1 with a current record (visited true, visitedAt, no
totalPrice) and a legacy record (totalPrice 100) - yields exactly one
Visit for that key, and it has totalPrice 100 and visited true. -/
theorem C1_merge_precedence_witness :
    (((loadPartnerData store1 "P1").submissions.filter
        (fun s => qrKeyOf s = "qr:a@x.com:P1:v1")).length = 1)
    ∧ Obj.get ((loadPartnerData store1 "P1").submissions.headD []) "totalPrice"
        = some (.num 100)
    ∧ Obj.get ((loadPartnerData store1 "P1").submissions.headD []) "visited"
        = some (.bool true) := by
  have hcur : store1.hashes "qr:a@x.com:P1:v1" ≠ [] := by
    intro hc
    have hl : (store1.hashes "qr:a@x.com:P1:v1").length = 2 := rfl
    rw [hc] at hl
    exact Nat.noConfusion hl
  have hleg : store1.hashes ("qr:email:" ++ "a@x.com") ≠ [] := by
    intro hc
    have hl : (store1.hashes ("qr:email:" ++ "a@x.com")).length = 2 := rfl
    rw [hc] at hl
    exact Nat.noConfusion hl
  refine ⟨?_, rfl, rfl⟩
  exact (C1_merge_precedence store1 "P1" "a@x.com" "P1" "v1" "qr:a@x.com:P1:v1"
    rfl (by decide) hcur hleg (by decide) (by decide)).2.1

/-- C5 (counterexample): the claim says identifiers differing only by
case resolve the same candidate keys and return identical ledgers; but
AbC and abc resolve different key-variant sets (AbC probes
partner:visits:AbC, abc does not), and on store5, which holds members
only under partner:visits:AbC, the two calls return ledgers of
different length. -/
theorem C5_counterexample :
    normalizePartnerId "AbC" = normalizePartnerId "abc"
    ∧ (loadPartnerData store5 "AbC").submissions.length = 1
    ∧ (loadPartnerData store5 "abc").submissions.length = 0 := ⟨rfl, rfl, rfl⟩

/-- C5 (amended): every identifier's candidate key set contains the
visit-set key of its normalized (trimmed, lower-cased) form, so two
identifiers agreeing after normalization always both probe that shared
key; and when the store's visit-set members live only under that
normalized key (and the visit branch yields at least one submission,
keeping the raw-identifier legacy path out of play), the two calls
return identical submissions, metrics and partnerLabel.  Ledgers can
differ when data sits under other case variants (see counterexample). -/
theorem C5_normalized_key_insensitive (store : KVStore) (id1 id2 : String)
    (hn : normalizePartnerId id2 = normalizePartnerId id1)
    (hne : normalizePartnerId id1 ≠ "")
    (hsets : ∀ ky, ky ≠ "partner:visits:" ++ normalizePartnerId id1 → store.sets ky = [])
    (hvs : visitSubmissionsOf store id1 (normalizePartnerId id1) ≠ []) :
    ("partner:visits:" ++ normalizePartnerId id1) ∈ visitSetKeys id1 (normalizePartnerId id1)
    ∧ ("partner:visits:" ++ normalizePartnerId id2) ∈ visitSetKeys id2 (normalizePartnerId id2)
    ∧ (loadPartnerData store id1).submissions = (loadPartnerData store id2).submissions
    ∧ (loadPartnerData store id1).metrics = (loadPartnerData store id2).metrics
    ∧ (loadPartnerData store id1).partnerLabel = (loadPartnerData store id2).partnerLabel := by
  have hne2 : normalizePartnerId id2 ≠ "" := by rw [hn]; exact hne
  have hm1 := mem_visitSetKeys_norm id1 hne
  have hm2 := mem_visitSetKeys_norm id2 hne2
  have hm2' : ("partner:visits:" ++ normalizePartnerId id1)
      ∈ visitSetKeys id2 (normalizePartnerId id1) := by
    rw [← hn]; exact hm2
  have hpool : visitRecordKeys store (visitSetKeys id1 (normalizePartnerId id1))
      = visitRecordKeys store (visitSetKeys id2 (normalizePartnerId id1)) := by
    rw [visitRecordKeys_only_key store ("partner:visits:" ++ normalizePartnerId id1) _
        hsets (visitSetKeys_nodup id1 (normalizePartnerId id1)),
      visitRecordKeys_only_key store ("partner:visits:" ++ normalizePartnerId id1) _
        hsets (visitSetKeys_nodup id2 (normalizePartnerId id1)),
      if_pos hm1, if_pos hm2']
  have hsubs : visitSubmissionsOf store id1 (normalizePartnerId id1)
      = visitSubmissionsOf store id2 (normalizePartnerId id1) :=
    visitSubmissionsOf_congr store id1 id2 (normalizePartnerId id1) hne hpool
  have hvs2 : visitSubmissionsOf store id2 (normalizePartnerId id2) ≠ [] := by
    rw [hn, ← hsubs]; exact hvs
  have hl1 := loadPartnerData_of_visitSubs_ne store id1 hvs
  have hl2 := loadPartnerData_of_visitSubs_ne store id2 hvs2
  refine ⟨hm1, hm2, ?_, ?_, ?_⟩ <;> rw [hl1, hl2, hn, ← hsubs]
  · rfl
  · rfl
  · rfl

/-- C5 (witness): on store5n, whose members live only under the
normalized key partner:visits:abc, the identifiers AbC and abc return
identical submissions, metrics and partnerLabel, and the shared ledger
is nonempty. -/
theorem C5_normalized_key_insensitive_witness :
    (loadPartnerData store5n "AbC").submissions = (loadPartnerData store5n "abc").submissions
    ∧ (loadPartnerData store5n "AbC").metrics = (loadPartnerData store5n "abc").metrics
    ∧ (loadPartnerData store5n "AbC").submissions.length = 1 := by
  have hsets : ∀ ky, ky ≠ "partner:visits:" ++ normalizePartnerId "AbC" →
      store5n.sets ky = [] := by
    intro ky hky
    show (if ky = "partner:visits:abc" then ["qr:a:abc:1"] else []) = []
    rw [if_neg (fun he => hky (by rw [he]; rfl))]
  have hvs : visitSubmissionsOf store5n "AbC" (normalizePartnerId "AbC") ≠ [] := by
    intro hc
    have hl : (visitSubmissionsOf store5n "AbC" (normalizePartnerId "AbC")).length = 1 := rfl
    rw [hc] at hl
    exact Nat.noConfusion hl
  have h := C5_normalized_key_insensitive store5n "AbC" "abc" rfl (by decide) hsets hvs
  exact ⟨h.2.2.1, h.2.2.2.1, rfl⟩
